import Mathlib

/-!
# opal_interval_tree: the red-black interval tree of `opal/class/opal_interval_tree.c`

The C code works on a graph of heap nodes linked by pointers, with two sentinel
nodes embedded in the tree object.  The embedding keeps that shape: memory is a
list of node records, a pointer is an index into it, and every function of the
source becomes a function on the whole tree state.  Loops take a fuel argument
and report `Res.timeout` when it runs out; a load or store through `NULL` (or
through a pointer outside memory) is `Res.crash Fault.segv`, a failed `assert`
is `Res.crash Fault.assertion`.

Readings of source text that does not name a declared object:

* `RP_RELEASE(a, b)` has no definition in the source; it is read as the store
  `a = b`.
* `left_rotate` assigns through `y`, which it never declares; its comments call
  the right child of `x` by that name, so `y` is read as the local `right`.
* `right_rotate` assigns `z` and `opal_interval_tree_insert_node` assigns `ret`
  without declaring them; both are read as locals.
* `opal_interval_tree_node_duplicate` reads `node->value`; the node has no such
  field and the payload field is `data`, so it is read as `node->data`.
* `opal_interval_tree_node_lock` and `_unlock` use `tree->lock`, a word the
  header does not declare; it is kept as a field of the tree state.
* calls that leave out the `tree` argument (`opal_interval_tree_node_retain
  (parent)`) are read with it, and `tree->nill` compared with a pointer (in
  `left_rotate`) is read as `&tree->nill`.
-/

namespace OpalIntervalTree

/-! ## Data model -/

/-- A pointer to a node: an index into `Tree.mem`. -/
abbrev Ptr := Nat

/-- The null pointer. -/
def NULL : Ptr := 0

/-- The address of `tree->root`, the root sentinel. -/
def ROOT : Ptr := 1

/-- The address of `tree->nill`, the leaf sentinel. -/
def NIL : Ptr := 2

/-- The value of `(uint64_t) -1`. -/
def UINT64_MAX : Nat := 2 ^ 64 - 1

/-- The enum `opal_interval_tree_nodecolor_t`. -/
inductive Color where
  | RED
  | BLACK
deriving DecidableEq, Repr

/-- The struct `opal_interval_tree_node_t` (without the free-list item header). -/
structure Node where
  color : Color
  parent : Ptr
  left : Ptr
  right : Ptr
  ref_count : Int
  lock : Int
  data : Nat
  low : Nat
  high : Nat
  max : Nat
deriving DecidableEq, Repr

/-- The struct `opal_interval_tree_t` together with the memory its pointers refer to.
`mem[ROOT]` and `mem[NIL]` are the two embedded sentinels, `mem[NULL]` is never read.
`free_list` holds the nodes the pooled allocator will hand out, next one first. -/
structure Tree where
  mem : List Node
  free_list : List Ptr
  tree_size : Nat
  lock : Nat
deriving DecidableEq, Repr

/-- The return codes of `opal/constants.h` that the tree uses. -/
inductive Rc where
  | OPAL_SUCCESS
  | OPAL_ERR_OUT_OF_RESOURCE
  | OPAL_ERR_BAD_PARAM
  | OPAL_ERR_NOT_FOUND
deriving DecidableEq, Repr

/-- The ways a call can end without returning. -/
inductive Fault where
  | segv
  | assertion
deriving DecidableEq, Repr

/-- The outcome of running a piece of the program. -/
inductive Res (α : Type) where
  | ok (a : α)
  | crash (f : Fault)
  | timeout
deriving DecidableEq, Repr

/-- Sequencing of outcomes. -/
def Res.bind {α β : Type} (r : Res α) (k : α → Res β) : Res β :=
  match r with
  | .ok a => k a
  | .crash f => .crash f
  | .timeout => .timeout

instance : Monad Res where
  pure := Res.ok
  bind := Res.bind

/-! ## Memory access -/

/-- Read the node behind a pointer. -/
def load (t : Tree) (p : Ptr) : Res Node :=
  if p = NULL then .crash .segv
  else match t.mem[p]? with
    | some n => .ok n
    | none => .crash .segv

/-- Overwrite the node behind a pointer. -/
def store (t : Tree) (p : Ptr) (n : Node) : Tree :=
  { t with mem := t.mem.set p n }

/-- Update the node behind a pointer. -/
def update (t : Tree) (p : Ptr) (f : Node → Node) : Res Tree := do
  let n ← load t p
  pure (store t p (f n))

def getColor (t : Tree) (p : Ptr) : Res Color := do
  let n ← load t p
  pure n.color

def getParent (t : Tree) (p : Ptr) : Res Ptr := do
  let n ← load t p
  pure n.parent

def getLeft (t : Tree) (p : Ptr) : Res Ptr := do
  let n ← load t p
  pure n.left

def getRight (t : Tree) (p : Ptr) : Res Ptr := do
  let n ← load t p
  pure n.right

def getLow (t : Tree) (p : Ptr) : Res Nat := do
  let n ← load t p
  pure n.low

def getHigh (t : Tree) (p : Ptr) : Res Nat := do
  let n ← load t p
  pure n.high

def getMax (t : Tree) (p : Ptr) : Res Nat := do
  let n ← load t p
  pure n.max

def getData (t : Tree) (p : Ptr) : Res Nat := do
  let n ← load t p
  pure n.data

def setColor (t : Tree) (p : Ptr) (c : Color) : Res Tree :=
  update t p (fun n => { n with color := c })

def setParent (t : Tree) (p : Ptr) (q : Ptr) : Res Tree :=
  update t p (fun n => { n with parent := q })

def setLeft (t : Tree) (p : Ptr) (q : Ptr) : Res Tree :=
  update t p (fun n => { n with left := q })

def setRight (t : Tree) (p : Ptr) (q : Ptr) : Res Tree :=
  update t p (fun n => { n with right := q })

def setLow (t : Tree) (p : Ptr) (v : Nat) : Res Tree :=
  update t p (fun n => { n with low := v })

def setHigh (t : Tree) (p : Ptr) (v : Nat) : Res Tree :=
  update t p (fun n => { n with high := v })

def setMax (t : Tree) (p : Ptr) (v : Nat) : Res Tree :=
  update t p (fun n => { n with max := v })

def setData (t : Tree) (p : Ptr) (v : Nat) : Res Tree :=
  update t p (fun n => { n with data := v })

def setRefCount (t : Tree) (p : Ptr) (v : Int) : Res Tree :=
  update t p (fun n => { n with ref_count := v })

/-! ## The collaborators declared outside the source files -/

/-- Modelled from the spec: `opal_free_list_get` of the pooled allocator
(`allocate_node() -> Node | OutOfResource`).  It hands out the next pooled node and
yields `NULL`, touching nothing, when the pool has none. -/
def opal_free_list_get (t : Tree) : Ptr × Tree :=
  match t.free_list with
  | [] => (NULL, t)
  | p :: rest => (p, { t with free_list := rest })

/-- Modelled from the spec: `opal_free_list_return` of the pooled allocator
(`return_node(Node)`).  The node goes back to the pool as it is. -/
def opal_free_list_return (t : Tree) (p : Ptr) : Tree :=
  { t with free_list := p :: t.free_list }

/-- Modelled from the spec: `opal_atomic_cmpset_ptr`, the compare-and-set of a pointer
slot.  Given the slot's content it yields the new content and whether the store was
made. -/
def opal_atomic_cmpset_ptr (slot old new : Ptr) : Ptr × Bool :=
  if slot = old then (new, true) else (slot, false)

/-- Modelled from the spec: `opal_atomic_add_size_t` on `tree->tree_size`, a `size_t`
of 64 bits. -/
def opal_atomic_add_size_t (t : Tree) (delta : Int) : Tree :=
  { t with tree_size := (((t.tree_size : Int) + delta) % (2 ^ 64 : Int)).toNat }

/-! ## Node life cycle -/

/-- `opal_interval_tree_node_lock`: spin until the swap of `tree->lock` to 1 reads 0.
With nobody else to clear the word, a set lock spins for ever. -/
def opal_interval_tree_node_lock (t : Tree) (_node : Ptr) : Res Tree :=
  if t.lock ≠ 0 then .timeout else pure { t with lock := 1 }

/-- `opal_interval_tree_node_unlock`. -/
def opal_interval_tree_node_unlock (t : Tree) (_node : Ptr) : Tree :=
  { t with lock := 0 }

/-- `opal_interval_tree_node_retain`. -/
def opal_interval_tree_node_retain (t : Tree) (node : Ptr) : Res Tree := do
  let n ← load t node
  pure (store t node { n with ref_count := n.ref_count + 1 })

/-- `opal_interval_tree_node_release`: `opal_atomic_add_32` yields the new count. -/
def opal_interval_tree_node_release (t : Tree) (node : Ptr) : Res Tree := do
  let n ← load t node
  let value := n.ref_count - 1
  let t := store t node { n with ref_count := value }
  if 0 = value then pure (opal_free_list_return t node) else pure t

/-- `opal_interval_tree_construct`, run on the memory the tree object occupies.  The
node constructor clears `ref_count` and `lock` of both sentinels; every field the body
does not assign keeps what the memory held.  The free list the third `OBJ_CONSTRUCT`
sets up belongs to the allocator: `free_list` stays the supply it will draw on. -/
def opal_interval_tree_construct (t : Tree) : Res Tree := do
  let t ← update t ROOT (fun n => { n with ref_count := 0, lock := 0 })
  let t ← update t NIL (fun n => { n with ref_count := 0, lock := 0 })
  let t ← update t NIL (fun n =>
    { n with color := .BLACK, left := NIL, right := NIL, parent := NIL, max := 0,
             ref_count := 1 })
  let t ← update t ROOT (fun n =>
    { n with color := .BLACK, left := NIL, right := NIL, parent := NIL,
             low := UINT64_MAX, ref_count := 1 })
  pure { t with tree_size := 0 }

/-! ## Rotations -/

/-- `opal_interval_tree_node_duplicate`: a pooled node that receives the payload, the
interval and `max` of `node`, and nothing else. -/
def opal_interval_tree_node_duplicate (t : Tree) (node : Ptr) : Res (Tree × Ptr) := do
  let (new_node, t) := opal_free_list_get t
  if new_node ≠ NULL then
    let t ← setData t new_node (← getData t node)
    let t ← setLow t new_node (← getLow t node)
    let t ← setHigh t new_node (← getHigh t node)
    let t ← setMax t new_node (← getMax t node)
    pure (t, new_node)
  else
    pure (t, new_node)

/-- `left_rotate`. -/
def left_rotate (t : Tree) (x : Ptr) : Res Tree := do
  let (t, x_copy) ← opal_interval_tree_node_duplicate t x
  if x_copy = NULL then .crash .assertion else
  let right ← getRight t x_copy
  let t ← setRight t x_copy (← getLeft t right)
  let t ← setParent t x_copy right
  let t ← (do
    let rl ← getLeft t right
    if rl ≠ NIL then setParent t rl x_copy else pure t)
  let xp ← getParent t x
  let t ← (do
    if x = (← getLeft t xp) then setLeft t xp right else setRight t xp right)
  let t ← setParent t right (← getParent t x)
  let t ← setLeft t right x_copy
  opal_interval_tree_node_release t x

/-- `right_rotate`. -/
def right_rotate (t : Tree) (x : Ptr) : Res Tree := do
  let (t, x_copy) ← opal_interval_tree_node_duplicate t x
  if x_copy = NULL then .crash .assertion else
  let left ← getLeft t x
  let right ← getRight t x
  let t ← setLeft t x_copy left
  let t ← setParent t left x_copy
  let t ← setRight t left x_copy
  let t ← setParent t x_copy left
  let t ← setMax t x_copy
    (Nat.max (← getHigh t x) (Nat.max (← getMax t left) (← getMax t right)))
  let z ← getParent t x
  let t ← (do
    if (← getLeft t z) = x then setLeft t z left else setRight t z left)
  let t ← setParent t left z
  opal_interval_tree_node_release t x

/-! ## Insertion -/

/-- The body of the inner `while (n != &tree->nill)` of
`opal_interval_tree_insert_node`, run at a node `n`: yields the state and the next `n`;
`n` itself becomes `parent`. -/
def insert_node_visit (t : Tree) (node parent n : Ptr) : Res (Tree × Ptr) := do
  let t ← opal_interval_tree_node_retain t n
  let t ← opal_interval_tree_node_release t parent
  let t ← (do
    if (← getMax t n) < (← getHigh t node) then setMax t n (← getHigh t node)
    else pure t)
  let next ← (do
    if (← getLow t node) < (← getLow t n) then getLeft t n else getRight t n)
  pure (t, next)

/-- The inner `while (n != &tree->nill)` of `opal_interval_tree_insert_node`: the walk
to a leaf position.  Yields the state and the last node visited (`parent`). -/
def insert_node_descend : Nat → Tree → Ptr → Ptr → Ptr → Res (Tree × Ptr)
  | 0, _, _, _, _ => .timeout
  | fuel + 1, t, node, parent, n =>
    if n = NIL then pure (t, parent) else do
      let (t, next) ← insert_node_visit t node parent n
      insert_node_descend fuel t node n next

/-- The part of the retry loop of `opal_interval_tree_insert_node` after the walk: set
the parent link, take the lock, compare-and-set the child slot of `parent`, drop the
lock.  Yields the state and `ret`. -/
def insert_node_place (t : Tree) (node parent : Ptr) : Res (Tree × Bool) := do
  let t ← setParent t node parent
  let t ← opal_interval_tree_node_lock t parent
  let (t, ret) ← (do
    if (← getLow t node) < (← getLow t parent) then
      let (v, ret) := opal_atomic_cmpset_ptr (← getLeft t parent) NIL node
      pure ((← setLeft t parent v), ret)
    else
      let (v, ret) := opal_atomic_cmpset_ptr (← getRight t parent) NIL node
      pure ((← setRight t parent v), ret))
  pure (opal_interval_tree_node_unlock t parent, ret)

/-- The start of each turn of the retry loop: retain `&tree->root` and read the real
root. -/
def insert_node_enter (t : Tree) : Res (Tree × Ptr) := do
  let t ← opal_interval_tree_node_retain t ROOT
  pure (t, (← getLeft t ROOT))

/-- The `do { ... } while (1)` of `opal_interval_tree_insert_node`.  The only way out
is the `break` taken when `ret` is zero, that is when the compare-and-set did not
store. -/
def insert_node_retry : Nat → Tree → Ptr → Res Tree
  | 0, _, _ => .timeout
  | fuel + 1, t, node => do
    let (t, n) ← insert_node_enter t
    let (t, parent) ← insert_node_descend fuel t node ROOT n
    let (t, ret) ← insert_node_place t node parent
    if !ret then pure t else insert_node_retry fuel t node

/-- The assignments of `opal_interval_tree_insert_node` ahead of its loop. -/
def insert_node_init (t : Tree) (node : Ptr) : Res Tree := do
  let t ← setColor t node .RED
  let t ← setParent t node NULL
  let t ← setLeft t node NIL
  setRight t node NIL

/-- `opal_interval_tree_insert_node`. -/
def opal_interval_tree_insert_node (fuel : Nat) (t : Tree) (node : Ptr) : Res Tree := do
  let t ← insert_node_init t node
  let t ← insert_node_retry fuel t node
  pure (opal_atomic_add_size_t t 1)

/-- The `while (node->parent->color == RED)` of `opal_interval_tree_insert`. -/
def insert_fixup : Nat → Tree → Ptr → Res Tree
  | 0, _, _ => .timeout
  | fuel + 1, t, node => do
    if (← getColor t (← getParent t node)) ≠ .RED then pure t else
    if (← getParent t node) = (← getLeft t (← getParent t (← getParent t node))) then
      let y ← getRight t (← getParent t (← getParent t node))
      if (← getColor t y) = .RED then
        let t ← setColor t (← getParent t node) .BLACK
        let t ← setColor t y .BLACK
        let t ← setColor t (← getParent t (← getParent t node)) .RED
        let node ← getParent t (← getParent t node)
        insert_fixup fuel t node
      else
        let (t, node) ← (do
          if node = (← getRight t (← getParent t node)) then
            let node ← getParent t node
            let t ← left_rotate t node
            pure (t, node)
          else pure (t, node))
        let t ← setColor t (← getParent t node) .BLACK
        let t ← setColor t (← getParent t (← getParent t node)) .RED
        let t ← right_rotate t (← getParent t (← getParent t node))
        insert_fixup fuel t node
    else
      let y ← getLeft t (← getParent t (← getParent t node))
      if (← getColor t y) = .RED then
        let t ← setColor t (← getParent t node) .BLACK
        let t ← setColor t y .BLACK
        let t ← setColor t (← getParent t (← getParent t node)) .RED
        let node ← getParent t (← getParent t node)
        insert_fixup fuel t node
      else
        let (t, node) ← (do
          if node = (← getLeft t (← getParent t node)) then
            let node ← getParent t node
            let t ← right_rotate t node
            pure (t, node)
          else pure (t, node))
        let t ← setColor t (← getParent t node) .BLACK
        let t ← setColor t (← getParent t (← getParent t node)) .RED
        let t ← left_rotate t (← getParent t (← getParent t node))
        insert_fixup fuel t node

/-- The assignments of `opal_interval_tree_insert` that fill the new node. -/
def insert_fill (t : Tree) (node : Ptr) (value low high : Nat) : Res Tree := do
  let t ← setData t node value
  let t ← setLow t node low
  let t ← setHigh t node high
  let t ← setMax t node high
  setRefCount t node 1

/-- `opal_interval_tree_insert`: the return code and the state it leaves. -/
def opal_interval_tree_insert (fuel : Nat) (t : Tree) (value low high : Nat) :
    Res (Rc × Tree) :=
  if low > high then pure (.OPAL_ERR_BAD_PARAM, t) else
  let (node, t) := opal_free_list_get t
  if node = NULL then pure (.OPAL_ERR_OUT_OF_RESOURCE, t) else do
  let t ← insert_fill t node value low high
  let t ← opal_interval_tree_insert_node fuel t node
  let t ← insert_fixup fuel t node
  let t ← setColor t (← getLeft t ROOT) .BLACK
  pure (.OPAL_SUCCESS, t)

/-! ## Lookup -/

/-- The `while (nill != node)` of `opal_interval_tree_find_node`, entered at `node`.
Yields the node found, retained, or `NULL`. -/
def find_node_loop : Nat → Tree → Nat → Nat → Bool → Ptr → Res (Tree × Ptr)
  | 0, _, _, _, _, _ => .timeout
  | fuel + 1, t, low, high, exact, node =>
    if NIL = node then pure (t, NULL) else do
      let t ← opal_interval_tree_node_retain t node
      let nd ← load t node
      if (exact && nd.low == low && nd.high == high) ||
          (!exact && decide (nd.low ≤ low) && decide (nd.high ≥ high)) then
        pure (t, node)
      else
        let next := if low ≤ nd.low then nd.left else nd.right
        let t ← opal_interval_tree_node_release t node
        find_node_loop fuel t low high exact next

/-- `opal_interval_tree_find_node`: the walk starts at `&tree->root`. -/
def opal_interval_tree_find_node (fuel : Nat) (t : Tree) (low high : Nat) (exact : Bool) :
    Res (Tree × Ptr) :=
  find_node_loop fuel t low high exact ROOT

/-- `opal_interval_tree_find_overlapping`: the payload returned (0 for `NULL`) and the
state it leaves. -/
def opal_interval_tree_find_overlapping (fuel : Nat) (t : Tree) (low high : Nat) :
    Res (Nat × Tree) := do
  let (t, node) ← opal_interval_tree_find_node fuel t low high true
  let data ← (do if node ≠ NULL then getData t node else pure 0)
  let t ← opal_interval_tree_node_release t node
  pure (data, t)

/-! ## Deletion -/

/-- The first loop of `btree_successor`: climb while `node` is a right child. -/
def btree_successor_up : Nat → Tree → Ptr → Ptr → Res Ptr
  | 0, _, _, _ => .timeout
  | fuel + 1, t, node, p => do
    if node = (← getRight t p) then
      btree_successor_up fuel t p (← getParent t p)
    else pure p

/-- The second loop of `btree_successor`: go left as far as possible. -/
def btree_successor_down : Nat → Tree → Ptr → Res Ptr
  | 0, _, _ => .timeout
  | fuel + 1, t, p => do
    if (← getLeft t p) ≠ NIL then btree_successor_down fuel t (← getLeft t p)
    else pure p

/-- `btree_successor`. -/
def btree_successor (fuel : Nat) (t : Tree) (node : Ptr) : Res Ptr := do
  if (← getRight t node) = NIL then
    let p ← btree_successor_up fuel t node (← getParent t node)
    if p = ROOT then pure NIL else pure p
  else
    btree_successor_down fuel t (← getRight t node)

/-- The test `(a->color == BLACK) && (b->color == BLACK)`; `b` is read only when `a` is
black. -/
def bothBlack (t : Tree) (a b : Ptr) : Res Bool := do
  if (← getColor t a) = .BLACK then pure (decide ((← getColor t b) = .BLACK))
  else pure false

/-- The `while ((x != root) && (x->color == BLACK))` of `btree_delete_fixup`; `root` is
the value `tree->root.left` had on entry.  Yields the state and the final `x`. -/
def btree_delete_fixup_loop : Nat → Tree → Ptr → Ptr → Res (Tree × Ptr)
  | 0, _, _, _ => .timeout
  | fuel + 1, t, root, x => do
    if x = root then pure (t, x) else
    if (← getColor t x) ≠ .BLACK then pure (t, x) else
    if x = (← getLeft t (← getParent t x)) then
      let w ← getRight t (← getParent t x)
      let (t, w) ← (do
        if (← getColor t w) = .RED then
          let t ← setColor t w .BLACK
          let t ← setColor t (← getParent t x) .RED
          let t ← left_rotate t (← getParent t x)
          pure (t, (← getRight t (← getParent t x)))
        else pure (t, w))
      if (← bothBlack t (← getLeft t w) (← getRight t w)) then
        let t ← setColor t w .RED
        btree_delete_fixup_loop fuel t root (← getParent t x)
      else
        let (t, w) ← (do
          if (← getColor t (← getRight t w)) = .BLACK then
            let t ← setColor t (← getLeft t w) .BLACK
            let t ← setColor t w .RED
            let t ← right_rotate t w
            pure (t, (← getRight t (← getParent t x)))
          else pure (t, w))
        let t ← setColor t w (← getColor t (← getParent t x))
        let t ← setColor t (← getParent t x) .BLACK
        let t ← setColor t (← getRight t w) .BLACK
        let t ← left_rotate t (← getParent t x)
        btree_delete_fixup_loop fuel t root root
    else
      let w ← getLeft t (← getParent t x)
      let (t, w) ← (do
        if (← getColor t w) = .RED then
          let t ← setColor t w .BLACK
          let t ← setColor t (← getParent t x) .RED
          let t ← right_rotate t (← getParent t x)
          pure (t, (← getLeft t (← getParent t x)))
        else pure (t, w))
      if (← bothBlack t (← getRight t w) (← getLeft t w)) then
        let t ← setColor t w .RED
        btree_delete_fixup_loop fuel t root (← getParent t x)
      else
        let (t, w) ← (do
          if (← getColor t (← getLeft t w)) = .BLACK then
            let t ← setColor t (← getRight t w) .BLACK
            let t ← setColor t w .RED
            let t ← left_rotate t w
            pure (t, (← getLeft t (← getParent t x)))
          else pure (t, w))
        let t ← setColor t w (← getColor t (← getParent t x))
        let t ← setColor t (← getParent t x) .BLACK
        let t ← setColor t (← getLeft t w) .BLACK
        let t ← right_rotate t (← getParent t x)
        btree_delete_fixup_loop fuel t root root

/-- `btree_delete_fixup`. -/
def btree_delete_fixup (fuel : Nat) (t : Tree) (x : Ptr) : Res Tree := do
  let root ← getLeft t ROOT
  let (t, x) ← btree_delete_fixup_loop fuel t root x
  setColor t x .BLACK

/-- `opal_interval_tree_delete`: the return code and the state it leaves. -/
def opal_interval_tree_delete (fuel : Nat) (t : Tree) (low high : Nat) :
    Res (Rc × Tree) := do
  let (t, p) ← opal_interval_tree_find_node fuel t low high true
  if NULL = p then pure (.OPAL_ERR_NOT_FOUND, t) else
  let todelete ← (do
    if (← getLeft t p) = NIL ∨ (← getRight t p) = NIL then pure p
    else btree_successor fuel t p)
  let y ← (do
    if (← getLeft t todelete) = NIL then getRight t todelete else getLeft t todelete)
  let t ← setParent t y (← getParent t todelete)
  let t ← (do
    if (← getParent t y) = ROOT then setLeft t ROOT y
    else if todelete = (← getLeft t (← getParent t todelete)) then
      setLeft t (← getParent t todelete) y
    else
      setRight t (← getParent t todelete) y)
  let t ← (do
    if todelete ≠ p then
      let t ← setLow t p (← getLow t todelete)
      let t ← setHigh t p (← getHigh t todelete)
      let t ← setMax t p (← getMax t todelete)
      setData t p (← getData t todelete)
    else pure t)
  let t ← (do
    if (← getColor t todelete) = .BLACK then btree_delete_fixup fuel t y else pure t)
  let t := opal_free_list_return t todelete
  let t := opal_atomic_add_size_t t (-1)
  pure (.OPAL_SUCCESS, t)

/-! ## Size -/

/-- The conversion of a `size_t` to the `int` that `opal_interval_tree_size` returns. -/
def toInt32 (n : Nat) : Int :=
  if n % 2 ^ 32 < 2 ^ 31 then (n % 2 ^ 32 : Nat) else (n % 2 ^ 32 : Nat) - 2 ^ 32

/-- `opal_interval_tree_size`. -/
def opal_interval_tree_size (t : Tree) : Int :=
  toInt32 t.tree_size

/-! ## Destruction -/

/-- `inorder_destroy`: both subtrees first, then the two children of the node go back to
the pool, then `tree_size` drops by one. -/
def inorder_destroy : Nat → Tree → Ptr → Res Tree
  | 0, _, _ => .timeout
  | fuel + 1, t, node =>
    if node = NIL then pure t else do
      let t ← inorder_destroy fuel t (← getLeft t node)
      let t ← inorder_destroy fuel t (← getRight t node)
      let t ← (do
        if (← getLeft t node) ≠ NIL then pure (opal_free_list_return t (← getLeft t node))
        else pure t)
      let t ← (do
        if (← getRight t node) ≠ NIL then pure (opal_free_list_return t (← getRight t node))
        else pure t)
      pure (opal_atomic_add_size_t t (-1))

/-- `opal_interval_tree_destroy`: the walk starts at `&tree->root`. -/
def opal_interval_tree_destroy (fuel : Nat) (t : Tree) : Res (Rc × Tree) := do
  let t ← inorder_destroy fuel t ROOT
  pure (.OPAL_SUCCESS, t)

/-- The reference count of a node. -/
def getRefCount (t : Tree) (p : Ptr) : Res Int := do
  let n ← load t p
  pure n.ref_count

/-! ## Traversal -/

/-- One call of the action: the arguments `(low, high, data)` it was given. -/
abbrev Call := Nat × Nat × Nat

/-- The condition of `inorder_traversal` under which the action is called on a node. -/
def traversal_test (low high : Nat) (complete : Bool) (n : Node) : Bool :=
  (complete && (decide (low ≥ n.low) && decide (high ≤ n.high))) ||
    (!complete && ((decide (n.low ≤ low) && decide (low ≤ n.high)) ||
      (decide (n.low ≤ high) && decide (high ≤ n.high)) ||
      (decide (low ≤ n.low) && decide (high ≥ n.high))))

/-- `inorder_traversal`: left subtree, the node, right subtree.  The action is a
function of the caller; what the walk does with it is recorded as the list of calls it
makes, in the order it makes them.  Yields the state and that list. -/
def inorder_traversal : Nat → Tree → Nat → Nat → Bool → Ptr → Res (Tree × List Call)
  | 0, _, _, _, _, _ => .timeout
  | fuel + 1, t, low, high, complete, node =>
    if node = NIL then pure (t, []) else do
      let (t, before) ← inorder_traversal fuel t low high complete (← getLeft t node)
      let n ← load t node
      let here := if traversal_test low high complete n then [(n.low, n.high, n.data)]
        else []
      let (t, after) ← inorder_traversal fuel t low high complete (← getRight t node)
      pure (t, before ++ here ++ after)

/-- `opal_interval_tree_traverse`; `action` is the function pointer it is given.  Yields
the return code, the state and the calls of the action. -/
def opal_interval_tree_traverse (fuel : Nat) (t : Tree) (low high : Nat) (complete : Bool)
    (action : Ptr) : Res (Rc × Tree × List Call) :=
  if action = NULL then pure (.OPAL_ERR_BAD_PARAM, t, []) else do
    let (t, calls) ← inorder_traversal fuel t low high complete (← getLeft t ROOT)
    pure (.OPAL_SUCCESS, t, calls)

/-! ## The data-model invariants

The tree reachable from `tree->root.left` is read off memory as a value, and the
invariants of the data model are stated on that value. -/

/-- The real nodes below a pointer, as a binary tree of (address, record). -/
inductive Shape where
  | nil
  | node (l : Shape) (p : Ptr) (n : Node) (r : Shape)
deriving DecidableEq, Repr

/-- Read the subtree below `p`, following child links down to `NIL`, to depth at most
`d`.  There is no answer when a link leaves memory, reaches `NULL` or `ROOT`, or the
depth bound is hit (as on a cycle). -/
def shapeAt : Nat → Tree → Ptr → Option Shape
  | 0, _, _ => none
  | d + 1, t, p =>
    if p = NIL then some .nil
    else if p = NULL ∨ p = ROOT then none
    else match t.mem[p]? with
      | none => none
      | some n =>
        match shapeAt d t n.left, shapeAt d t n.right with
        | some l, some r => some (.node l p n r)
        | _, _ => none

/-- The tree hanging from `tree->root.left`. -/
def shape (t : Tree) : Option Shape :=
  match t.mem[ROOT]? with
  | none => none
  | some r => shapeAt t.mem.length t r.left

/-- The nodes in in-order. -/
def Shape.nodes : Shape → List (Ptr × Node)
  | .nil => []
  | .node l p n r => l.nodes ++ (p, n) :: r.nodes

/-- Invariant 1: every key is at least the keys to its left and at most the keys to its
right. -/
def Shape.bst : Shape → Bool
  | .nil => true
  | .node l _ n r =>
    l.bst && r.bst && l.nodes.all (fun q => decide (q.2.low ≤ n.low)) &&
      r.nodes.all (fun q => decide (n.low ≤ q.2.low))

/-- The colour of the top node; `NIL` is black. -/
def Shape.color : Shape → Color
  | .nil => .BLACK
  | .node _ _ n _ => n.color

/-- Invariant 2, first half: a red node has two black children. -/
def Shape.noRedRed : Shape → Bool
  | .nil => true
  | .node l _ n r =>
    l.noRedRed && r.noRedRed &&
      (n.color = .BLACK || (l.color = .BLACK && r.color = .BLACK))

/-- Invariant 2, second half: the number of black nodes on every path down to `NIL`,
when it is the same on all of them. -/
def Shape.blackHeight : Shape → Option Nat
  | .nil => some 1
  | .node l _ n r =>
    match l.blackHeight, r.blackHeight with
    | some a, some b =>
      if a = b then some (if n.color = .BLACK then a + 1 else a) else none
    | _, _ => none

/-- The `max` stored at the top of a subtree; that of `NIL` is 0. -/
def Shape.maxOf : Shape → Nat
  | .nil => 0
  | .node _ _ n _ => n.max

/-- Invariant 3: `n.max = max(n.high, n.left.max, n.right.max)` at every node. -/
def Shape.augmented : Shape → Bool
  | .nil => true
  | .node l _ n r =>
    l.augmented && r.augmented && n.max == Nat.max n.high (Nat.max l.maxOf r.maxOf)

/-- Parent links agree with child links, below a node whose address is `parent`. -/
def Shape.linked (parent : Ptr) : Shape → Bool
  | .nil => true
  | .node l p n r => n.parent == parent && l.linked p && r.linked p

/-- Invariant 1 on a tree state. -/
def bstOrdered (t : Tree) : Bool :=
  match shape t with
  | some s => s.bst
  | none => false

/-- Invariant 2 on a tree state: both sentinels black, no red node with a red child,
one black height. -/
def redBlack (t : Tree) : Bool :=
  match t.mem[ROOT]?, t.mem[NIL]?, shape t with
  | some r, some n, some s =>
    r.color = .BLACK && n.color = .BLACK && s.noRedRed && s.blackHeight.isSome
  | _, _, _ => false

/-- Invariant 3 on a tree state, with `NIL.max = 0`. -/
def augmented (t : Tree) : Bool :=
  match t.mem[NIL]?, shape t with
  | some n, some s => n.max == 0 && s.augmented
  | _, _ => false

/-- The number of real nodes reachable from `tree->root.left`. -/
def realNodes (t : Tree) : Option Nat :=
  (shape t).map (fun s => s.nodes.length)

/-- Invariant 4: `tree_size` counts the real nodes. -/
def sizeCounts (t : Tree) : Bool :=
  realNodes t == some t.tree_size

/-- Invariant 5 for the nodes of the tree: each holds at least one reference. -/
def refCounted (t : Tree) : Bool :=
  match shape t with
  | some s => s.nodes.all (fun q => decide (1 ≤ q.2.ref_count))
  | none => false

/-- The pointer structure is that of a tree: every real node is met once, parent links
mirror child links, the children of `NIL` are `NIL`, `ROOT` carries the largest key, and
every interval has `low ≤ high`. -/
def wellLinked (t : Tree) : Bool :=
  match t.mem[ROOT]?, t.mem[NIL]?, shape t with
  | some r, some n, some s =>
    r.low == UINT64_MAX && r.right == NIL && n.left == NIL && n.right == NIL &&
      s.linked ROOT && (s.nodes.map Prod.fst).Nodup &&
      s.nodes.all (fun q => decide (q.2.low ≤ q.2.high))
  | _, _, _ => false

/-- All the invariants of the data model together. -/
def dataModel (t : Tree) : Bool :=
  wellLinked t && bstOrdered t && redBlack t && augmented t && sizeCounts t &&
    refCounted t

/-- The (low, high, payload) triples held by the real nodes, in in-order. -/
def triples (t : Tree) : Option (List (Nat × Nat × Nat)) :=
  (shape t).map (fun s => s.nodes.map (fun q => (q.2.low, q.2.high, q.2.data)))

/-- The calls the traversal is to make on a subtree: one for each node that passes
`traversal_test`, in in-order, with the node's own interval and payload. -/
def Shape.calls (low high : Nat) (complete : Bool) (s : Shape) : List Call :=
  (s.nodes.filter (fun q => traversal_test low high complete q.2)).map
    (fun q => (q.2.low, q.2.high, q.2.data))

/-- The address at the top of a subtree, as a list: none for `NIL`. -/
def Shape.top : Shape → List Ptr
  | .nil => []
  | .node _ p _ _ => [p]

/-- The addresses `inorder_destroy` hands to the pool while it walks a subtree, in the
order of the calls.  The top of the subtree is handed over by the caller. -/
def Shape.handed : Shape → List Ptr
  | .nil => []
  | .node l _ _ r => l.handed ++ r.handed ++ l.top ++ r.top

/-- The value of a 64-bit `tree_size` after one decrement. -/
def sizeMinusOne (n : Nat) : Nat :=
  (opal_atomic_add_size_t ⟨[], [], n, 0⟩ (-1)).tree_size

/-- The colour of the true root `tree->root.left`. -/
def trueRootColor (t : Tree) : Option Color :=
  (shape t).map Shape.color

/-! ## Bounded simulation of the retry loop

`insert_node_retry` can fail to return.  The functions below run it for a bounded
number of steps and report when the walk has reached a state that a further visit maps
to itself; the theorems on them turn that report into a statement for every fuel. -/

/-- What a bounded simulation of the walk of `insert_node_descend` can establish. -/
inductive Walk where
  | spins
  | lands (r : Tree × Ptr)
  | unknown
deriving DecidableEq

/-- Simulate the walk for at most `k` visits.  It `spins` once a visit at a node that is
its own predecessor leaves the state, and the node, as they were. -/
def descendCheck : Nat → Tree → Ptr → Ptr → Ptr → Walk
  | 0, _, _, _, _ => .unknown
  | k + 1, t, node, p, n =>
    if n = NIL then .lands (t, p) else
    match insert_node_visit t node p n with
    | .ok (t1, next) =>
      if p = n ∧ t1 = t ∧ next = n then .spins else descendCheck k t1 node n next
    | _ => .unknown

/-- Simulate the retry loop for at most `k` turns; `true` when a turn is reached whose
walk spins. -/
def retryCheck : Nat → Tree → Ptr → Bool
  | 0, _, _ => false
  | k + 1, t, node =>
    match insert_node_enter t with
    | .ok (t1, n) =>
      match descendCheck (k + 1) t1 node ROOT n with
      | .spins => true
      | .lands (t2, parent) =>
        match insert_node_place t2 node parent with
        | .ok (t3, true) => retryCheck k t3 node
        | _ => false
      | .unknown => false
    | _ => false

/-- Simulate `opal_interval_tree_insert` up to its retry loop and check that loop. -/
def insertSpinCheck (k : Nat) (t : Tree) (value low high : Nat) : Bool :=
  decide (low ≤ high) &&
    (match opal_free_list_get t with
     | (node, t1) =>
       decide (node ≠ NULL) &&
         (match insert_fill t1 node value low high >>= fun t2 => insert_node_init t2 node with
          | .ok t3 => retryCheck k t3 node
          | _ => false))

/-! ## Concrete tree states -/

/-- A node record of zero bytes. -/
def zeroNode : Node := ⟨.RED, 0, 0, 0, 0, 0, 0, 0, 0, 0⟩

/-- The root sentinel of a tree whose true root is `left`. -/
def rootSentinel (left : Ptr) : Node := ⟨.BLACK, NIL, left, NIL, 1, 0, 0, UINT64_MAX, 0, 0⟩

/-- The leaf sentinel, as the constructor leaves it. -/
def nilSentinel : Node := ⟨.BLACK, NIL, NIL, NIL, 1, 0, 0, 0, 0, 0⟩

/-- Zeroed memory for a tree object, with two zeroed nodes (addresses 3 and 4) in the
pool. -/
def rawTree : Tree := ⟨[zeroNode, zeroNode, zeroNode, zeroNode, zeroNode], [3, 4], 0, 0⟩

/-- The state `opal_interval_tree_construct` makes of `rawTree`. -/
def emptyTree : Tree :=
  ⟨[zeroNode, rootSentinel NIL, nilSentinel, zeroNode, zeroNode], [3, 4], 0, 0⟩

/-- The node at address 3 while it is being inserted: red, `max = high`, with the given
links and reference count. -/
def newNode (parent left right : Ptr) (ref_count : Int) (value low high : Nat) : Node :=
  ⟨.RED, parent, left, right, ref_count, 0, value, low, high, high⟩

/-- The states the first insert into `emptyTree` goes through: `ROOT` with the given
reference count and left link, the node at address 3, one node left in the pool. -/
def insertingState (root_ref_count : Int) (root_left : Ptr) (n3 : Node) : Tree :=
  ⟨[zeroNode, ⟨.BLACK, NIL, root_left, NIL, root_ref_count, 0, 0, UINT64_MAX, 0, 0⟩,
    nilSentinel, n3, zeroNode], [4], 0, 0⟩

/-- The tree `[10,20]` (black, payload 1) with `[10,30]` (red, payload 2) as its right
child, and one zeroed node in the pool. -/
def sameLowTree : Tree :=
  ⟨[zeroNode, rootSentinel 3, nilSentinel,
    ⟨.BLACK, 1, 2, 4, 1, 0, 1, 10, 20, 30⟩,
    ⟨.RED, 3, 2, 2, 1, 0, 2, 10, 30, 30⟩,
    zeroNode], [5], 2, 0⟩

/-- The tree `[10,20]` (black) with `[20,30]` (red) as its right child, and one zeroed
node in the pool. -/
def chainTree : Tree :=
  ⟨[zeroNode, rootSentinel 3, nilSentinel,
    ⟨.BLACK, 1, 2, 4, 1, 0, 1, 10, 20, 30⟩,
    ⟨.RED, 3, 2, 2, 1, 0, 2, 20, 30, 30⟩,
    zeroNode], [5], 2, 0⟩

/-- The tree `[30,40]` (black) with `[20,25]` (red) as its left child, and two zeroed
nodes in the pool. -/
def leftChainTree : Tree :=
  ⟨[zeroNode, rootSentinel 3, nilSentinel,
    ⟨.BLACK, 1, 4, 2, 1, 0, 1, 30, 40, 40⟩,
    ⟨.RED, 3, 2, 2, 1, 0, 2, 20, 25, 25⟩,
    zeroNode, zeroNode], [5, 6], 2, 0⟩

/-- The five nodes `[20,25]` (black) over `[10,15]` (black) and `[30,35]` (red), the
latter over `[25,28]` and `[40,45]` (both black); `pool` is the free list and `extra`
the memory behind it. -/
def fiveTree (extra : List Node) (pool : List Ptr) : Tree :=
  ⟨[zeroNode, rootSentinel 3, nilSentinel,
    ⟨.BLACK, 1, 4, 5, 1, 0, 1, 20, 25, 45⟩,
    ⟨.BLACK, 3, 2, 2, 1, 0, 2, 10, 15, 15⟩,
    ⟨.RED, 3, 6, 7, 1, 0, 3, 30, 35, 45⟩,
    ⟨.BLACK, 5, 2, 2, 1, 0, 4, 25, 28, 28⟩,
    ⟨.BLACK, 5, 2, 2, 1, 0, 5, 40, 45, 45⟩] ++ extra, pool, 5, 0⟩

/-- The tree `[10,20]` (black) with `[5,50]` (red) as its left child and an empty
pool. -/
def tallLeafTree : Tree :=
  ⟨[zeroNode, rootSentinel 3, nilSentinel,
    ⟨.BLACK, 1, 4, 2, 1, 0, 1, 10, 20, 50⟩,
    ⟨.RED, 3, 2, 2, 1, 0, 2, 5, 50, 50⟩], [], 2, 0⟩

/-- The tree whose only node is `[10,20]` (payload 1), and one zeroed node in the
pool. -/
def singleTree : Tree :=
  ⟨[zeroNode, rootSentinel 3, nilSentinel,
    ⟨.BLACK, 1, 2, 2, 1, 0, 1, 10, 20, 20⟩,
    zeroNode], [4], 1, 0⟩

/-- The tree of the example scenario: `[10,20]` (black, payload 1) over `[5,15]` (red,
payload 2) and `[25,30]` (red, payload 3); empty pool. -/
def scenarioTree : Tree :=
  ⟨[zeroNode, rootSentinel 3, nilSentinel,
    ⟨.BLACK, 1, 4, 5, 1, 0, 1, 10, 20, 30⟩,
    ⟨.RED, 3, 2, 2, 1, 0, 2, 5, 15, 15⟩,
    ⟨.RED, 3, 2, 2, 1, 0, 3, 25, 30, 30⟩], [], 3, 0⟩

/-- The tree of the traversal scenario: `[30,40]` (black, payload 2) over `[10,20]`
(red, payload 1) and `[50,150]` (red, payload 3); empty pool. -/
def rangesTree : Tree :=
  ⟨[zeroNode, rootSentinel 3, nilSentinel,
    ⟨.BLACK, 1, 4, 5, 1, 0, 2, 30, 40, 150⟩,
    ⟨.RED, 3, 2, 2, 1, 0, 1, 10, 20, 20⟩,
    ⟨.RED, 3, 2, 2, 1, 0, 3, 50, 150, 150⟩], [], 3, 0⟩

/-- The shape of `rangesTree`. -/
def rangesShape : Shape :=
  .node (.node .nil 4 ⟨.RED, 3, 2, 2, 1, 0, 1, 10, 20, 20⟩ .nil) 3
    ⟨.BLACK, 1, 4, 5, 1, 0, 2, 30, 40, 150⟩
    (.node .nil 5 ⟨.RED, 3, 2, 2, 1, 0, 3, 50, 150, 150⟩ .nil)

/-- The shape of `sameLowTree`. -/
def sameLowShape : Shape :=
  .node .nil 3 ⟨.BLACK, 1, 2, 4, 1, 0, 1, 10, 20, 30⟩
    (.node .nil 4 ⟨.RED, 3, 2, 2, 1, 0, 2, 10, 30, 30⟩ .nil)

/-- The tree `[10,20]` with left child `[5,50]`, as `tallLeafTree`, while a query holds
a second reference to the leaf. -/
def heldLeafTree : Tree :=
  ⟨[zeroNode, rootSentinel 3, nilSentinel,
    ⟨.BLACK, 1, 4, 2, 1, 0, 1, 10, 20, 50⟩,
    ⟨.RED, 3, 2, 2, 2, 0, 2, 5, 50, 50⟩], [], 2, 0⟩

/-- Memory for a tree object that was in use before: the cell of the root sentinel
holds `high = 5` and `data = 77`; two zeroed nodes in the pool. -/
def usedRawTree : Tree :=
  ⟨[zeroNode, ⟨.RED, 0, 0, 0, 0, 0, 77, 0, 5, 0⟩, zeroNode, zeroNode, zeroNode], [3, 4], 0, 0⟩

/-- A pooled node whose stale links happen to be those of the node at address 3 of
`fiveTree`: left 4, right 5. -/
def luckyNode : Node := ⟨.RED, 0, 4, 5, 0, 0, 0, 0, 0, 0⟩

/-- The shape of `scenarioTree`. -/
def scenarioShape : Shape :=
  .node (.node .nil 4 ⟨.RED, 3, 2, 2, 1, 0, 2, 5, 15, 15⟩ .nil) 3
    ⟨.BLACK, 1, 4, 5, 1, 0, 1, 10, 20, 30⟩
    (.node .nil 5 ⟨.RED, 3, 2, 2, 1, 0, 3, 25, 30, 30⟩ .nil)

/-! ## Theorems -/

theorem Res.ok_bind {α β : Type} (a : α) (k : α → Res β) : (Res.ok a >>= k) = k a := rfl

theorem Res.timeout_bind {α β : Type} (k : α → Res β) :
    ((Res.timeout : Res α) >>= k) = .timeout := rfl

theorem Res.crash_bind {α β : Type} (c : Fault) (k : α → Res β) :
    ((Res.crash c : Res α) >>= k) = .crash c := rfl

/-- Constructing a tree on zeroed memory gives the empty tree. -/
theorem construct_rawTree : opal_interval_tree_construct rawTree = .ok emptyTree := by
  decide

/-- The empty tree satisfies every invariant of the data model. -/
theorem dataModel_emptyTree : dataModel emptyTree = true := by
  decide

/-! ### The retry loop of `opal_interval_tree_insert_node` -/

/-- A visit that maps a state and a node to themselves repeats for ever. -/
theorem descend_fixpoint {node : Ptr} {t : Tree} {n : Ptr} (hn : n ≠ NIL)
    (h : insert_node_visit t node n n = .ok (t, n)) :
    ∀ f, insert_node_descend f t node n n = .timeout := by
  intro f
  induction f with
  | zero => rfl
  | succ f ih =>
    rw [insert_node_descend, if_neg hn, h]
    exact ih

/-- At `NIL` the walk ends where it stands, given any fuel at all. -/
theorem descend_at_nil (node : Ptr) (t : Tree) (p : Ptr) :
    ∀ f, insert_node_descend f t node p NIL = .timeout ∨
      insert_node_descend f t node p NIL = .ok (t, p) := by
  intro f
  cases f with
  | zero => exact Or.inl rfl
  | succ f => exact Or.inr (by rw [insert_node_descend, if_pos rfl]; rfl)

/-- A walk whose first visit leads to a walk that ends, ends in the same place. -/
theorem descend_visit_lands {node : Ptr} {t t1 : Tree} {p n next : Ptr} {r : Tree × Ptr}
    (hn : n ≠ NIL) (hv : insert_node_visit t node p n = .ok (t1, next))
    (hl : ∀ f, insert_node_descend f t1 node n next = .timeout ∨
      insert_node_descend f t1 node n next = .ok r) :
    ∀ f, insert_node_descend f t node p n = .timeout ∨
      insert_node_descend f t node p n = .ok r := by
  intro f
  cases f with
  | zero => exact Or.inl rfl
  | succ f => rw [insert_node_descend, if_neg hn, hv]; exact hl f

/-- A walk whose first visit leads to a walk that never ends, never ends. -/
theorem descend_visit_spins {node : Ptr} {t t1 : Tree} {p n next : Ptr}
    (hn : n ≠ NIL) (hv : insert_node_visit t node p n = .ok (t1, next))
    (hs : ∀ f, insert_node_descend f t1 node n next = .timeout) :
    ∀ f, insert_node_descend f t node p n = .timeout := by
  intro f
  cases f with
  | zero => rfl
  | succ f => rw [insert_node_descend, if_neg hn, hv]; exact hs f

/-- A turn of the retry loop whose walk never ends: the loop never ends. -/
theorem retry_of_spinning_walk {node : Ptr} {t t1 : Tree} {n : Ptr}
    (he : insert_node_enter t = .ok (t1, n))
    (hs : ∀ f, insert_node_descend f t1 node ROOT n = .timeout) :
    ∀ f, insert_node_retry f t node = .timeout := by
  intro f
  cases f with
  | zero => rfl
  | succ f => rw [insert_node_retry, he, Res.ok_bind]; simp only; rw [hs f]; rfl

/-- A turn of the retry loop whose compare-and-set stores (`ret` is true) is followed by
another turn: if the loop never ends from there, it never ends from here. -/
theorem retry_of_next_turn {node : Ptr} {t t1 t2 t3 : Tree} {n parent : Ptr}
    (he : insert_node_enter t = .ok (t1, n))
    (hl : ∀ f, insert_node_descend f t1 node ROOT n = .timeout ∨
      insert_node_descend f t1 node ROOT n = .ok (t2, parent))
    (hp : insert_node_place t2 node parent = .ok (t3, true))
    (hs : ∀ f, insert_node_retry f t3 node = .timeout) :
    ∀ f, insert_node_retry f t node = .timeout := by
  intro f
  cases f with
  | zero => rfl
  | succ f =>
    rw [insert_node_retry, he, Res.ok_bind]
    simp only
    rcases hl f with h1 | h1
    · rw [h1]; rfl
    · rw [h1, Res.ok_bind]; simp only; rw [hp, Res.ok_bind]; exact hs f

/-- When the simulation says the walk spins, the walk times out on every fuel. -/
theorem descendCheck_spins {node : Ptr} :
    ∀ (k : Nat) (t : Tree) (p n : Ptr), descendCheck k t node p n = .spins →
      ∀ f, insert_node_descend f t node p n = .timeout := by
  intro k
  induction k with
  | zero => intro t p n h; simp [descendCheck] at h
  | succ k ih =>
    intro t p n h
    rw [descendCheck] at h
    by_cases hn : n = NIL
    · simp [hn] at h
    · rw [if_neg hn] at h
      cases hv : insert_node_visit t node p n with
      | ok r =>
        obtain ⟨t1, next⟩ := r
        rw [hv] at h
        simp only at h
        by_cases hc : p = n ∧ t1 = t ∧ next = n
        · obtain ⟨rfl, rfl, rfl⟩ := hc
          exact descend_fixpoint hn hv
        · rw [if_neg hc] at h
          exact descend_visit_spins hn hv (ih t1 n next h)
      | crash c => rw [hv] at h; simp at h
      | timeout => rw [hv] at h; simp at h

/-- When the simulation says the walk lands, the walk gives that result on every fuel
that lets it finish. -/
theorem descendCheck_lands {node : Ptr} :
    ∀ (k : Nat) (t : Tree) (p n : Ptr) (r : Tree × Ptr),
      descendCheck k t node p n = .lands r →
      ∀ f, insert_node_descend f t node p n = .timeout ∨
        insert_node_descend f t node p n = .ok r := by
  intro k
  induction k with
  | zero => intro t p n r h; simp [descendCheck] at h
  | succ k ih =>
    intro t p n r h
    rw [descendCheck] at h
    by_cases hn : n = NIL
    · rw [if_pos hn] at h
      cases h
      rw [hn]
      exact descend_at_nil node t p
    · rw [if_neg hn] at h
      cases hv : insert_node_visit t node p n with
      | ok r1 =>
        obtain ⟨t1, next⟩ := r1
        rw [hv] at h
        simp only at h
        by_cases hc : p = n ∧ t1 = t ∧ next = n
        · rw [if_pos hc] at h; cases h
        · rw [if_neg hc] at h
          exact descend_visit_lands hn hv (ih t1 n next r h)
      | crash c => rw [hv] at h; simp at h
      | timeout => rw [hv] at h; simp at h

/-- When the simulation of the retry loop reaches a spinning walk, the loop times out on
every fuel. -/
theorem retryCheck_sound {node : Ptr} :
    ∀ (k : Nat) (t : Tree), retryCheck k t node = true →
      ∀ f, insert_node_retry f t node = .timeout := by
  intro k
  induction k with
  | zero => intro t h; simp [retryCheck] at h
  | succ k ih =>
    intro t h
    rw [retryCheck] at h
    cases he : insert_node_enter t with
    | ok r =>
      obtain ⟨t1, n⟩ := r
      rw [he] at h
      simp only at h
      cases hd : descendCheck (k + 1) t1 node ROOT n with
      | spins => exact retry_of_spinning_walk he (descendCheck_spins _ _ _ _ hd)
      | lands r2 =>
        obtain ⟨t2, parent⟩ := r2
        rw [hd] at h
        simp only at h
        cases hp : insert_node_place t2 node parent with
        | ok r3 =>
          obtain ⟨t3, ret⟩ := r3
          rw [hp] at h
          cases ret with
          | true =>
            simp only at h
            exact retry_of_next_turn he (descendCheck_lands _ _ _ _ _ hd) hp (ih t3 h)
          | false => simp at h
        | crash c => rw [hp] at h; simp at h
        | timeout => rw [hp] at h; simp at h
      | unknown => rw [hd] at h; simp at h
    | crash c => rw [he] at h; simp at h
    | timeout => rw [he] at h; simp at h

/-- When the simulation of an insert reaches a spinning walk, the insert times out on
every fuel: it does not return. -/
theorem insertSpinCheck_sound (k : Nat) {t : Tree} {value low high : Nat}
    (h : insertSpinCheck k t value low high = true) :
    ∀ fuel, opal_interval_tree_insert fuel t value low high = .timeout := by
  intro fuel
  unfold insertSpinCheck at h
  simp only [Bool.and_eq_true, decide_eq_true_eq] at h
  obtain ⟨hle, h⟩ := h
  unfold opal_interval_tree_insert
  rw [if_neg (by omega)]
  cases hg : opal_free_list_get t with
  | mk node t1 =>
    rw [hg] at h
    simp only [Bool.and_eq_true, decide_eq_true_eq] at h
    obtain ⟨hnode, h⟩ := h
    simp only
    rw [if_neg hnode]
    cases hf : insert_fill t1 node value low high with
    | ok t2 =>
      rw [hf, Res.ok_bind] at h
      rw [Res.ok_bind]
      unfold opal_interval_tree_insert_node
      cases hi : insert_node_init t2 node with
      | ok t3 =>
        rw [hi] at h
        simp only at h
        rw [Res.ok_bind, retryCheck_sound k t3 h fuel]
        rfl
      | crash c => rw [hi] at h; simp at h
      | timeout => rw [hi] at h; simp at h
    | crash c => rw [hf] at h; simp [Res.bind, bind] at h
    | timeout => rw [hf] at h; simp [Res.bind, bind] at h

/-! ### The first insert into an empty tree, for every interval

The three turns of the retry loop, state by state: the first links the node under
`ROOT`, the second links it as its own right child, the third walks that link. -/

/-- First turn: below `ROOT`, a key under `2^64 - 1` goes to the left slot, which is
`NIL`, so the compare-and-set stores. -/
theorem place_first (v lo hi : Nat) (h : lo < UINT64_MAX) :
    insert_node_place (insertingState 2 NIL (newNode NULL NIL NIL 1 v lo hi)) 3 ROOT =
      .ok (insertingState 2 3 (newNode ROOT NIL NIL 1 v lo hi), true) := by
  simp [insert_node_place, insertingState, newNode, setParent, setLeft, setRight, getLow,
    getLeft, getRight, update, load, store, ROOT, NIL, NULL, opal_interval_tree_node_lock,
    opal_interval_tree_node_unlock, opal_atomic_cmpset_ptr, bind, Res.bind, pure, h,
    nilSentinel, zeroNode]

/-- Second turn: the walk visits the node itself and leaves it to the right, at `NIL`. -/
theorem visit_second (v lo hi : Nat) :
    insert_node_visit (insertingState 3 3 (newNode ROOT NIL NIL 1 v lo hi)) 3 ROOT 3 =
      .ok (insertingState 2 3 (newNode ROOT NIL NIL 2 v lo hi), NIL) := by
  simp [insert_node_visit, insertingState, newNode, setMax, getMax, getHigh, getLow,
    getLeft, getRight, update, load, store, ROOT, NIL, NULL,
    opal_interval_tree_node_retain, opal_interval_tree_node_release,
    opal_free_list_return, bind, Res.bind, pure, nilSentinel, zeroNode]

/-- Second turn: the node is its own parent, its right slot is `NIL`, and the
compare-and-set stores the node there. -/
theorem place_second (v lo hi : Nat) :
    insert_node_place (insertingState 2 3 (newNode ROOT NIL NIL 2 v lo hi)) 3 3 =
      .ok (insertingState 2 3 (newNode 3 NIL 3 2 v lo hi), true) := by
  simp [insert_node_place, insertingState, newNode, setParent, setLeft, setRight, getLow,
    getLeft, getRight, update, load, store, ROOT, NIL, NULL, opal_interval_tree_node_lock,
    opal_interval_tree_node_unlock, opal_atomic_cmpset_ptr, bind, Res.bind, pure,
    nilSentinel, zeroNode]

/-- Third turn: the walk visits the node and leaves it to the right, at the node. -/
theorem visit_third (v lo hi : Nat) :
    insert_node_visit (insertingState 3 3 (newNode 3 NIL 3 2 v lo hi)) 3 ROOT 3 =
      .ok (insertingState 2 3 (newNode 3 NIL 3 3 v lo hi), 3) := by
  simp [insert_node_visit, insertingState, newNode, setMax, getMax, getHigh, getLow,
    getLeft, getRight, update, load, store, ROOT, NIL, NULL,
    opal_interval_tree_node_retain, opal_interval_tree_node_release,
    opal_free_list_return, bind, Res.bind, pure, nilSentinel, zeroNode]

/-- Third turn, from then on: a visit of the node coming from the node changes
nothing. -/
theorem visit_again (v lo hi : Nat) :
    insert_node_visit (insertingState 2 3 (newNode 3 NIL 3 3 v lo hi)) 3 3 3 =
      .ok (insertingState 2 3 (newNode 3 NIL 3 3 v lo hi), 3) := by
  simp [insert_node_visit, insertingState, newNode, setMax, getMax, getHigh, getLow,
    getLeft, getRight, update, load, store, ROOT, NIL, NULL,
    opal_interval_tree_node_retain, opal_interval_tree_node_release,
    opal_free_list_return, bind, Res.bind, pure, nilSentinel, zeroNode]

/-- The retry loop on the empty tree never ends when the key is under `2^64 - 1`. -/
theorem retry_on_emptyTree (v lo hi : Nat) (h : lo < UINT64_MAX) :
    ∀ f, insert_node_retry f (insertingState 1 NIL (newNode NULL NIL NIL 1 v lo hi)) 3 =
      .timeout := by
  have e1 : insert_node_enter (insertingState 1 NIL (newNode NULL NIL NIL 1 v lo hi)) =
      .ok (insertingState 2 NIL (newNode NULL NIL NIL 1 v lo hi), NIL) := rfl
  have e2 : insert_node_enter (insertingState 2 3 (newNode ROOT NIL NIL 1 v lo hi)) =
      .ok (insertingState 3 3 (newNode ROOT NIL NIL 1 v lo hi), 3) := rfl
  have e3 : insert_node_enter (insertingState 2 3 (newNode 3 NIL 3 2 v lo hi)) =
      .ok (insertingState 3 3 (newNode 3 NIL 3 2 v lo hi), 3) := rfl
  refine retry_of_next_turn e1 (descend_at_nil _ _ _) (place_first v lo hi h) ?_
  refine retry_of_next_turn e2
    (descend_visit_lands (by decide) (visit_second v lo hi) (descend_at_nil _ _ _))
    (place_second v lo hi) ?_
  refine retry_of_spinning_walk e3
    (descend_visit_spins (by decide) (visit_third v lo hi) ?_)
  exact descend_fixpoint (by decide) (visit_again v lo hi)

/-- An insert into the empty tree never returns when the key is under `2^64 - 1`. -/
theorem insert_on_emptyTree (v lo hi : Nat) (h1 : lo ≤ hi) (h2 : lo < UINT64_MAX) :
    ∀ fuel, opal_interval_tree_insert fuel emptyTree v lo hi = .timeout := by
  intro fuel
  unfold opal_interval_tree_insert
  rw [if_neg (by omega)]
  have hf : insert_fill (opal_free_list_get emptyTree).2 3 v lo hi =
      .ok (insertingState 1 NIL (newNode 0 0 0 1 v lo hi)) := rfl
  have hinit : insert_node_init (insertingState 1 NIL (newNode 0 0 0 1 v lo hi)) 3 =
      .ok (insertingState 1 NIL (newNode NULL NIL NIL 1 v lo hi)) := rfl
  show (insert_fill (opal_free_list_get emptyTree).2 3 v lo hi >>= fun t =>
      opal_interval_tree_insert_node fuel t 3 >>= _) = _
  rw [hf, Res.ok_bind]
  unfold opal_interval_tree_insert_node
  rw [hinit, Res.ok_bind, retry_on_emptyTree v lo hi h2 fuel]
  rfl

/-! ### Traversal -/

/-- What `shapeAt` says about the pointer it starts from. -/
theorem shapeAt_succ {d : Nat} {t : Tree} {p : Ptr} {s : Shape}
    (h : shapeAt (d + 1) t p = some s) :
    (p = NIL ∧ s = .nil) ∨
      (p ≠ NIL ∧ p ≠ NULL ∧ p ≠ ROOT ∧ ∃ n l r, t.mem[p]? = some n ∧
        shapeAt d t n.left = some l ∧ shapeAt d t n.right = some r ∧
        s = .node l p n r) := by
  rw [shapeAt] at h
  by_cases h1 : p = NIL
  · left
    rw [if_pos h1] at h
    exact ⟨h1, (Option.some.inj h).symm⟩
  · right
    rw [if_neg h1] at h
    by_cases h2 : p = NULL ∨ p = ROOT
    · rw [if_pos h2] at h; cases h
    · rw [if_neg h2] at h
      push_neg at h2
      refine ⟨h1, h2.1, h2.2, ?_⟩
      cases hm : t.mem[p]? with
      | none => rw [hm] at h; cases h
      | some n =>
        rw [hm] at h
        simp only at h
        cases hl : shapeAt d t n.left with
        | none => rw [hl] at h; cases h
        | some l =>
          cases hr : shapeAt d t n.right with
          | none => rw [hl, hr] at h; cases h
          | some r =>
            rw [hl, hr] at h
            exact ⟨n, l, r, rfl, hl, hr, (Option.some.inj h).symm⟩

/-- A non-null pointer into memory can be read. -/
theorem load_of_mem {t : Tree} {p : Ptr} {n : Node} (hp : p ≠ NULL) (h : t.mem[p]? = some n) :
    load t p = .ok n := by
  unfold load
  rw [if_neg hp, h]

/-- On a subtree that `shapeAt` can read, `inorder_traversal` returns, leaves the state as
it was, and makes exactly the calls of `Shape.calls`. -/
theorem traversal_of_shape (t : Tree) (low high : Nat) (complete : Bool) :
    ∀ (d : Nat) (p : Ptr) (s : Shape), shapeAt d t p = some s →
      ∀ k, inorder_traversal (d + k) t low high complete p =
        .ok (t, s.calls low high complete) := by
  intro d
  induction d with
  | zero => intro p s h; simp [shapeAt] at h
  | succ d ih =>
    intro p s h k
    have hk : d + 1 + k = (d + k) + 1 := by omega
    rw [hk, inorder_traversal]
    rcases shapeAt_succ h with ⟨h1, rfl⟩ | ⟨h1, h2, _, n, l, r, hm, hl, hr, rfl⟩
    · rw [if_pos h1]; rfl
    · rw [if_neg h1]
      have hload := load_of_mem h2 hm
      simp only [getLeft, getRight, hload, bind, Res.bind, pure, ih n.left l hl k,
        ih n.right r hr k]
      simp only [Shape.calls, Shape.nodes, List.filter_append, List.map_append,
        List.filter_cons, List.append_assoc]
      split <;> simp

/-- On a tree that `shape` can read, `opal_interval_tree_traverse` with an action returns
`OPAL_SUCCESS`, leaves the state as it was, and makes exactly the calls of
`Shape.calls`. -/
theorem traverse_of_shape {t : Tree} {s : Shape} (hs : shape t = some s) (low high : Nat)
    (complete : Bool) {action : Ptr} (ha : action ≠ NULL) (k : Nat) :
    opal_interval_tree_traverse (t.mem.length + k) t low high complete action =
      .ok (.OPAL_SUCCESS, t, s.calls low high complete) := by
  unfold shape at hs
  cases hr : t.mem[ROOT]? with
  | none => rw [hr] at hs; cases hs
  | some r =>
    rw [hr] at hs
    simp only at hs
    have hload : load t ROOT = .ok r := load_of_mem (by decide) hr
    unfold opal_interval_tree_traverse
    rw [if_neg ha]
    simp only [getLeft, hload, bind, Res.bind, pure,
      traversal_of_shape t low high complete _ _ _ hs k]

/-- Whenever `inorder_traversal` returns, the state is the one it started from. -/
theorem traversal_keeps_state (low high : Nat) (complete : Bool) :
    ∀ (fuel : Nat) (t : Tree) (p : Ptr) (r : Tree × List Call),
      inorder_traversal fuel t low high complete p = .ok r → r.1 = t := by
  intro fuel
  induction fuel with
  | zero => intro t p r h; simp [inorder_traversal] at h
  | succ fuel ih =>
    intro t p r h
    rw [inorder_traversal] at h
    by_cases h1 : p = NIL
    · rw [if_pos h1] at h
      cases h
      rfl
    · rw [if_neg h1] at h
      cases hl : load t p with
      | ok n =>
        simp only [getLeft, getRight, hl, bind, Res.bind, pure] at h
        cases h2 : inorder_traversal fuel t low high complete n.left with
        | ok r1 =>
          have e1 := ih t n.left r1 h2
          obtain ⟨t1, c1⟩ := r1
          simp only at e1
          subst e1
          simp only [h2, hl] at h
          cases h3 : inorder_traversal fuel t1 low high complete n.right with
          | ok r2 =>
            have e2 := ih t1 n.right r2 h3
            simp only [h3] at h
            cases h
            exact e2
          | crash c => simp [h3] at h
          | timeout => simp [h3] at h
        | crash c => simp [h2] at h
        | timeout => simp [h2] at h
      | crash c => simp [getLeft, hl, bind, Res.bind] at h
      | timeout => simp [getLeft, hl, bind, Res.bind] at h

/-- Whenever `opal_interval_tree_traverse` returns, the state is the one it started
from. -/
theorem traverse_keeps_state (fuel : Nat) (t : Tree) (low high : Nat) (complete : Bool)
    (action : Ptr) (r : Rc × Tree × List Call)
    (h : opal_interval_tree_traverse fuel t low high complete action = .ok r) :
    r.2.1 = t := by
  unfold opal_interval_tree_traverse at h
  by_cases ha : action = NULL
  · rw [if_pos ha] at h; cases h; rfl
  · rw [if_neg ha] at h
    cases hl : load t ROOT with
    | ok n =>
      simp only [getLeft, hl, bind, Res.bind, pure] at h
      cases h2 : inorder_traversal fuel t low high complete n.left with
      | ok r1 =>
        have e1 := traversal_keeps_state low high complete fuel t n.left r1 h2
        simp only [h2] at h
        cases h
        exact e1
      | crash c => simp [h2] at h
      | timeout => simp [h2] at h
    | crash c => simp [getLeft, hl, bind, Res.bind] at h
    | timeout => simp [getLeft, hl, bind, Res.bind] at h

/-- With `complete` false the three-way test is the intersection of the two closed
intervals. -/
theorem test_partial (low high : Nat) (n : Node) (h1 : low ≤ high) (h2 : n.low ≤ n.high) :
    traversal_test low high false n = decide (n.low ≤ high ∧ low ≤ n.high) := by
  unfold traversal_test
  rw [Bool.eq_iff_iff]
  simp only [Bool.false_and, Bool.not_false, Bool.true_and, Bool.false_or, Bool.or_eq_true,
    Bool.and_eq_true, decide_eq_true_eq, ge_iff_le]
  omega

/-- With `complete` true the test is that the node's interval contains the query. -/
theorem test_complete (low high : Nat) (n : Node) :
    traversal_test low high true n = decide (n.low ≤ low ∧ high ≤ n.high) := by
  unfold traversal_test
  rw [Bool.eq_iff_iff]
  simp

/-- In a subtree with the BST ordering, the in-order keys never decrease. -/
theorem bst_pairwise : ∀ s : Shape, s.bst = true →
    s.nodes.Pairwise (fun a b => a.2.low ≤ b.2.low) := by
  intro s
  induction s with
  | nil => intro _; exact List.Pairwise.nil
  | node l p n r ihl ihr =>
    intro h
    simp only [Shape.bst, Bool.and_eq_true, List.all_eq_true, decide_eq_true_eq] at h
    obtain ⟨⟨⟨hl, hr⟩, hla⟩, hra⟩ := h
    simp only [Shape.nodes]
    rw [List.pairwise_append]
    refine ⟨ihl hl, ?_, ?_⟩
    · rw [List.pairwise_cons]
      exact ⟨fun b hb => hra b hb, ihr hr⟩
    · intro a ha b hb
      rw [List.mem_cons] at hb
      rcases hb with rfl | hb
      · exact hla a ha
      · exact le_trans (hla a ha) (hra b hb)

/-- In a subtree with the BST ordering, the keys the action is called with never
decrease. -/
theorem calls_sorted (low high : Nat) (complete : Bool) (s : Shape) (h : s.bst = true) :
    ((s.calls low high complete).map Prod.fst).Pairwise (· ≤ ·) := by
  unfold Shape.calls
  rw [List.map_map, List.pairwise_map]
  exact (bst_pairwise s h).filter _

/-- Every node `shapeAt` reads is a record in memory at an address that is neither a
sentinel nor `NULL`. -/
theorem shapeAt_nodes (t : Tree) : ∀ (d : Nat) (p : Ptr) (s : Shape),
    shapeAt d t p = some s →
      ∀ q ∈ s.nodes, q.1 ≠ ROOT ∧ q.1 ≠ NIL ∧ q.1 ≠ NULL ∧ t.mem[q.1]? = some q.2 := by
  intro d
  induction d with
  | zero => intro p s h; simp [shapeAt] at h
  | succ d ih =>
    intro p s h q hq
    rcases shapeAt_succ h with ⟨_, rfl⟩ | ⟨h1, h2, h3, n, l, r, hm, hl, hr, rfl⟩
    · simp [Shape.nodes] at hq
    · simp only [Shape.nodes, List.mem_append, List.mem_cons] at hq
      rcases hq with hq | rfl | hq
      · exact ih _ _ hl q hq
      · exact ⟨h3, h1, h2, hm⟩
      · exact ih _ _ hr q hq

/-! ### The exact search for an interval that is not there -/

/-- Writing back what a list holds at an index changes nothing. -/
theorem set_of_getElem? {α : Type} : ∀ (l : List α) (i : Nat) (a : α),
    l[i]? = some a → l.set i a = l := by
  intro l
  induction l with
  | nil => intro i a h; simp at h
  | cons x xs ih =>
    intro i a h
    cases i with
    | zero => simp at h; simp [h]
    | succ i => simp at h; simp [ih i a h]

/-- Storing the record a pointer already holds changes nothing. -/
theorem store_of_mem {t : Tree} {p : Ptr} {n : Node} (h : t.mem[p]? = some n) :
    store t p n = t := by
  unfold store
  rw [set_of_getElem? _ _ _ h]

/-- The later of two stores through one pointer wins. -/
theorem store_store (t : Tree) (p : Ptr) (a b : Node) :
    store (store t p a) p b = store t p b := by
  unfold store
  simp only [List.set_set]

/-- A load after a store through the same valid pointer reads what was stored. -/
theorem load_store {t : Tree} {p : Ptr} {n : Node} (a : Node) (hp : p ≠ NULL)
    (h : t.mem[p]? = some n) : load (store t p a) p = .ok a := by
  unfold load store
  have hlt : p < t.mem.length := (List.getElem?_eq_some_iff.1 h).1
  rw [if_neg hp]
  simp only [List.getElem?_set_self hlt]

/-- A retain followed by a release of the same node, whose count is not zero, gives the
state back. -/
theorem retain_release {t : Tree} {p : Ptr} {n : Node} (hp : p ≠ NULL)
    (h : t.mem[p]? = some n) (hrc : n.ref_count ≠ 0) :
    opal_interval_tree_node_retain t p =
        .ok (store t p { n with ref_count := n.ref_count + 1 }) ∧
      opal_interval_tree_node_release (store t p { n with ref_count := n.ref_count + 1 }) p =
        .ok t := by
  constructor
  · unfold opal_interval_tree_node_retain
    rw [load_of_mem hp h]; rfl
  · unfold opal_interval_tree_node_release
    rw [load_store _ hp h]
    simp only [bind, Res.bind, pure, store_store, Int.add_sub_cancel]
    rw [if_neg (fun e => hrc e.symm)]
    have : ({ n with ref_count := n.ref_count } : Node) = n := rfl
    exact congrArg Res.ok (store_of_mem h)

/-- The exact search below a pointer, on a subtree none of whose nodes has the interval
sought and all of whose nodes are held: it ends with `NULL` and the state as it was. -/
theorem find_absent (t : Tree) (low high : Nat) :
    ∀ (d : Nat) (p : Ptr) (s : Shape), shapeAt d t p = some s →
      (∀ q ∈ s.nodes, ¬(q.2.low = low ∧ q.2.high = high)) →
      (∀ q ∈ s.nodes, q.2.ref_count ≠ 0) →
      ∀ k, find_node_loop (d + k) t low high true p = .ok (t, NULL) := by
  intro d
  induction d with
  | zero => intro p s h; simp [shapeAt] at h
  | succ d ih =>
    intro p s h habs hrc k
    have hk : d + 1 + k = (d + k) + 1 := by omega
    rw [hk, find_node_loop]
    rcases shapeAt_succ h with ⟨h1, rfl⟩ | ⟨h1, h2, _, n, l, r, hm, hl, hr, rfl⟩
    · rw [if_pos h1.symm]; rfl
    · rw [if_neg (fun e => h1 e.symm)]
      have hn : (p, n) ∈ (Shape.node l p n r).nodes := by simp [Shape.nodes]
      have hrr := retain_release h2 hm (hrc _ hn)
      have hno := habs _ hn
      simp only at hno
      rw [hrr.1, Res.ok_bind, load_store _ h2 hm, Res.ok_bind]
      have hc : ¬ (((true && n.low == low && n.high == high) ||
          (!true && decide (n.low ≤ low) && decide (n.high ≥ high))) = true) := by
        simp only [Bool.true_and, Bool.not_true, Bool.false_and, Bool.or_false,
          Bool.and_eq_true, beq_iff_eq]
        exact hno
      simp only
      rw [if_neg hc, hrr.2, Res.ok_bind]
      by_cases hle : low ≤ n.low
      · rw [if_pos hle]
        exact ih n.left l hl (fun q hq => habs q (by simp [Shape.nodes, hq]))
          (fun q hq => hrc q (by simp [Shape.nodes, hq])) k
      · rw [if_neg hle]
        exact ih n.right r hr (fun q hq => habs q (by simp [Shape.nodes, hq]))
          (fun q hq => hrc q (by simp [Shape.nodes, hq])) k

/-- What `dataModel` says, piece by piece. -/
theorem dataModel_parts {t : Tree} (h : dataModel t = true) :
    ∃ r s, t.mem[ROOT]? = some r ∧ shape t = some s ∧ r.low = UINT64_MAX ∧ r.right = NIL ∧
      (∀ q ∈ s.nodes, 1 ≤ q.2.ref_count) := by
  unfold dataModel at h
  simp only [Bool.and_eq_true] at h
  obtain ⟨⟨⟨⟨⟨hw, _⟩, _⟩, _⟩, _⟩, hrc⟩ := h
  unfold wellLinked at hw
  unfold refCounted at hrc
  cases hr : t.mem[ROOT]? with
  | none => simp [hr] at hw
  | some r =>
    cases hn : t.mem[NIL]? with
    | none => simp [hr, hn] at hw
    | some n =>
      cases hs : shape t with
      | none => simp [hs] at hrc
      | some s =>
        simp only [hr, hn, hs, Bool.and_eq_true, beq_iff_eq, List.all_eq_true,
          decide_eq_true_eq] at hw hrc
        exact ⟨r, s, rfl, rfl, hw.1.1.1.1.1.1, hw.1.1.1.1.1.2, hrc⟩

/-- The exact search on a tree that satisfies the invariants, for an interval that no
real node has and that is not the (key, `high`) pair stored in `ROOT`: it ends with
`NULL` and the state as it was. -/
theorem find_node_absent {t : Tree} (hd : dataModel t = true) {r : Node} {s : Shape}
    (hr : t.mem[ROOT]? = some r) (hs : shape t = some s) (hrc : r.ref_count ≠ 0)
    {low high : Nat} (habs : ∀ q ∈ s.nodes, ¬(q.2.low = low ∧ q.2.high = high))
    (hroot : ¬(r.low = low ∧ r.high = high)) (k : Nat) :
    opal_interval_tree_find_node (t.mem.length + 1 + k) t low high true = .ok (t, NULL) := by
  obtain ⟨r1, s1, hr1, hs1, hlow, hright, hheld⟩ := dataModel_parts hd
  rw [hr] at hr1
  cases hr1
  rw [hs] at hs1
  cases hs1
  unfold shape at hs
  rw [hr] at hs
  simp only at hs
  have hk : t.mem.length + 1 + k = (t.mem.length + k) + 1 := by omega
  have hrr := retain_release (by decide : ROOT ≠ NULL) hr hrc
  unfold opal_interval_tree_find_node
  rw [hk, find_node_loop, if_neg (by decide), hrr.1, Res.ok_bind,
    load_store _ (by decide) hr, Res.ok_bind]
  have hc : ¬ (((true && r.low == low && r.high == high) ||
      (!true && decide (r.low ≤ low) && decide (r.high ≥ high))) = true) := by
    simp only [Bool.true_and, Bool.not_true, Bool.false_and, Bool.or_false,
      Bool.and_eq_true, beq_iff_eq]
    exact hroot
  simp only
  rw [if_neg hc, hrr.2, Res.ok_bind]
  have hheld' : ∀ q ∈ s.nodes, q.2.ref_count ≠ 0 := fun q hq => by
    have := hheld q hq
    omega
  by_cases hle : low ≤ r.low
  · rw [if_pos hle]
    exact find_absent t low high _ _ _ hs habs hheld' k
  · rw [if_neg hle, hright]
    cases hlen : t.mem.length + k with
    | zero =>
      have h1 : 1 < t.mem.length := (List.getElem?_eq_some_iff.1 hr).1
      omega
    | succ m => rw [find_node_loop, if_pos rfl]; rfl

/-- On such a tree and for such an interval, `opal_interval_tree_delete` returns
`OPAL_ERR_NOT_FOUND` and leaves the state as it was. -/
theorem delete_absent {t : Tree} (hd : dataModel t = true) {r : Node} {s : Shape}
    (hr : t.mem[ROOT]? = some r) (hs : shape t = some s) (hrc : r.ref_count ≠ 0)
    {low high : Nat} (habs : ∀ q ∈ s.nodes, ¬(q.2.low = low ∧ q.2.high = high))
    (hroot : ¬(r.low = low ∧ r.high = high)) (k : Nat) :
    opal_interval_tree_delete (t.mem.length + 1 + k) t low high =
      .ok (.OPAL_ERR_NOT_FOUND, t) := by
  unfold opal_interval_tree_delete
  rw [find_node_absent hd hr hs hrc habs hroot k, Res.ok_bind]
  rfl

/-- On such a tree and for such an interval, `opal_interval_tree_find_overlapping` hands
the `NULL` it got from the search to the release, which dereferences it. -/
theorem find_overlapping_absent {t : Tree} (hd : dataModel t = true) {r : Node} {s : Shape}
    (hr : t.mem[ROOT]? = some r) (hs : shape t = some s) (hrc : r.ref_count ≠ 0)
    {low high : Nat} (habs : ∀ q ∈ s.nodes, ¬(q.2.low = low ∧ q.2.high = high))
    (hroot : ¬(r.low = low ∧ r.high = high)) (k : Nat) :
    opal_interval_tree_find_overlapping (t.mem.length + 1 + k) t low high =
      .crash .segv := by
  unfold opal_interval_tree_find_overlapping
  rw [find_node_absent hd hr hs hrc habs hroot k, Res.ok_bind]
  rfl

/-- What `wellLinked` says about the shape of the tree. -/
theorem wellLinked_shape {t : Tree} (h : wellLinked t = true) :
    ∃ s, shape t = some s ∧ (s.nodes.map Prod.fst).Nodup ∧
      ∀ q ∈ s.nodes, q.2.low ≤ q.2.high := by
  unfold wellLinked at h
  cases hr : t.mem[ROOT]? with
  | none => simp [hr] at h
  | some r =>
    cases hn : t.mem[NIL]? with
    | none => simp [hr, hn] at h
    | some n =>
      cases hs : shape t with
      | none => simp [hr, hn, hs] at h
      | some s =>
        simp only [hr, hn, hs, Bool.and_eq_true, beq_iff_eq, List.all_eq_true,
          decide_eq_true_eq] at h
        exact ⟨s, rfl, h.1.2, h.2⟩

/-! ### Destruction -/

/-- The shape read below a pointer depends on memory alone. -/
theorem shapeAt_mem {t1 t2 : Tree} (h : t1.mem = t2.mem) :
    ∀ (d : Nat) (p : Ptr), shapeAt d t1 p = shapeAt d t2 p := by
  intro d
  induction d with
  | zero => intro p; rfl
  | succ d ih =>
    intro p
    rw [shapeAt, shapeAt, h]
    split
    · rfl
    · split
      · rfl
      · cases t2.mem[p]? with
        | none => rfl
        | some n => simp only [ih]

/-- The top of the shape read below a pointer is that pointer, unless it is `NIL`. -/
theorem shapeAt_top {d : Nat} {t : Tree} {p : Ptr} {s : Shape} (h : shapeAt d t p = some s) :
    s.top = if p = NIL then [] else [p] := by
  cases d with
  | zero => simp [shapeAt] at h
  | succ d =>
    rcases shapeAt_succ h with ⟨h1, rfl⟩ | ⟨h1, _, _, n, l, r, _, _, _, rfl⟩
    · rw [if_pos h1]; rfl
    · rw [if_neg h1]; rfl

/-- On a subtree that `shapeAt` can read, `inorder_destroy` returns: memory is as it was,
the pool has received the addresses of `Shape.handed`, last one first, and `tree_size`
has dropped once for every node. -/
theorem destroy_of_shape (m : List Node) (lk : Nat) :
    ∀ (d : Nat) (p : Ptr) (s : Shape) (fl : List Ptr) (ts : Nat),
      shapeAt d ⟨m, fl, ts, lk⟩ p = some s →
      ∀ k, inorder_destroy (d + k) ⟨m, fl, ts, lk⟩ p =
        .ok ⟨m, s.handed.reverse ++ fl, sizeMinusOne^[s.nodes.length] ts, lk⟩ := by
  intro d
  induction d with
  | zero => intro p s fl ts h; simp [shapeAt] at h
  | succ d ih =>
    intro p s fl ts h k
    have hk : d + 1 + k = (d + k) + 1 := by omega
    rw [hk, inorder_destroy]
    rcases shapeAt_succ h with ⟨h1, rfl⟩ | ⟨h1, h2, _, n, l, r, hm, hl, hr, rfl⟩
    · rw [if_pos h1]; rfl
    · rw [if_neg h1]
      have hload : ∀ fl1 ts1, load ⟨m, fl1, ts1, lk⟩ p = .ok n :=
        fun fl1 ts1 => load_of_mem h2 hm
      have hl1 := ih n.left l fl ts hl k
      have hr0 : shapeAt d ⟨m, l.handed.reverse ++ fl, sizeMinusOne^[l.nodes.length] ts, lk⟩
          n.right = some r := by
        exact (@shapeAt_mem ⟨m, l.handed.reverse ++ fl, sizeMinusOne^[l.nodes.length] ts, lk⟩
          ⟨m, fl, ts, lk⟩ rfl d n.right).trans hr
      have hr1 := ih n.right r _ _ hr0 k
      have htl := shapeAt_top hl
      have htr := shapeAt_top hr
      have hsz : sizeMinusOne^[(Shape.node l p n r).nodes.length] ts =
          sizeMinusOne (sizeMinusOne^[r.nodes.length] (sizeMinusOne^[l.nodes.length] ts)) := by
        simp only [Shape.nodes, List.length_append, List.length_cons]
        rw [show l.nodes.length + (r.nodes.length + 1) = (r.nodes.length + 1) + l.nodes.length
          by omega, Function.iterate_add_apply, Function.iterate_succ_apply']
      have hdec : ∀ fl1 ts1, opal_atomic_add_size_t ⟨m, fl1, ts1, lk⟩ (-1) =
          ⟨m, fl1, sizeMinusOne ts1, lk⟩ := fun _ _ => rfl
      rw [hsz]
      simp only [getLeft, getRight, hload, bind, Res.bind, pure, hl1, hr1]
      by_cases hln : n.left = NIL <;> by_cases hrn : n.right = NIL <;>
        simp only [hln, hrn, if_true, if_false] at htl htr <;>
        simp [opal_free_list_return, hload, hln, hrn, hdec, Shape.handed, htl, htr]

/-- The addresses handed over for a subtree, with its top, are its nodes, each as often
as it occurs. -/
theorem handed_perm : ∀ s : Shape, (s.handed ++ s.top).Perm (s.nodes.map Prod.fst) := by
  intro s
  induction s with
  | nil => exact List.Perm.refl _
  | node l p n r ihl ihr =>
    rw [List.perm_iff_count]
    intro a
    have hl := List.perm_iff_count.1 ihl a
    have hr := List.perm_iff_count.1 ihr a
    simp only [Shape.handed, Shape.top, Shape.nodes, List.map_append, List.map_cons,
      List.count_append, List.count_cons, List.count_nil] at hl hr ⊢
    omega

/-- What `wellLinked` says about the root sentinel. -/
theorem wellLinked_root {t : Tree} (h : wellLinked t = true) :
    ∃ r, t.mem[ROOT]? = some r ∧ r.right = NIL ∧ r.low = UINT64_MAX := by
  unfold wellLinked at h
  cases hr : t.mem[ROOT]? with
  | none => simp [hr] at h
  | some r =>
    cases hn : t.mem[NIL]? with
    | none => simp [hr, hn] at h
    | some n =>
      cases hs : shape t with
      | none => simp [hr, hn, hs] at h
      | some s =>
        simp only [hr, hn, hs, Bool.and_eq_true, beq_iff_eq, List.all_eq_true,
          decide_eq_true_eq] at h
        exact ⟨r, rfl, h.1.1.1.1.1.2, h.1.1.1.1.1.1⟩

/-- On a well-formed tree `opal_interval_tree_destroy` returns `OPAL_SUCCESS`: memory is
as it was, the pool has received every node of the tree, and `tree_size` has dropped
once for every node and once more for `ROOT`. -/
theorem destroy_of_wellLinked {t : Tree} (hw : wellLinked t = true) {s : Shape}
    (hs : shape t = some s) (k : Nat) :
    opal_interval_tree_destroy (t.mem.length + 1 + k) t =
      .ok (.OPAL_SUCCESS, ⟨t.mem, (s.handed ++ s.top).reverse ++ t.free_list,
        sizeMinusOne^[s.nodes.length + 1] t.tree_size, t.lock⟩) := by
  obtain ⟨r, hr, hright, _⟩ := wellLinked_root hw
  obtain ⟨m, fl, ts, lk⟩ := t
  have hs2 := hs
  unfold shape at hs2
  rw [hr] at hs2
  simp only at hs2
  have hlen : 1 < m.length := (List.getElem?_eq_some_iff.1 hr).1
  have hk : m.length + 1 + k = (m.length + k) + 1 := by omega
  have hload : ∀ fl1 ts1, load ⟨m, fl1, ts1, lk⟩ ROOT = .ok r :=
    fun fl1 ts1 => load_of_mem (by decide) hr
  have hleft := destroy_of_shape m lk _ _ _ fl ts hs2 k
  have htop := shapeAt_top hs2
  have hnil : ∀ t1 : Tree, inorder_destroy (m.length + k) t1 NIL = .ok t1 := by
    intro t1
    cases hmk : m.length + k with
    | zero => omega
    | succ j => rw [inorder_destroy, if_pos rfl]; rfl
  have hdec : ∀ fl1 ts1, opal_atomic_add_size_t ⟨m, fl1, ts1, lk⟩ (-1) =
      ⟨m, fl1, sizeMinusOne ts1, lk⟩ := fun _ _ => rfl
  unfold opal_interval_tree_destroy
  simp only [hk]
  rw [inorder_destroy, if_neg (by decide)]
  simp only [getLeft, getRight, hload, bind, Res.bind, pure, hleft, hright, hnil]
  by_cases hln : r.left = NIL <;>
    simp only [hln, if_true, if_false] at htop <;>
    simp [opal_free_list_return, hload, hln, hright, hdec, htop, Function.iterate_succ_apply']

/-- A decrement of a positive 64-bit size subtracts one. -/
theorem sizeMinusOne_succ (n : Nat) (h : n + 1 < 2 ^ 64) : sizeMinusOne (n + 1) = n := by
  unfold sizeMinusOne opal_atomic_add_size_t
  simp only
  have : ((((n + 1 : Nat) : Int) + -1) % (2 ^ 64 : Int)) = (n : Int) := by
    rw [Int.emod_eq_of_lt] <;> omega
  rw [this]
  rfl

/-- As many decrements as the size allows subtract that many. -/
theorem sizeMinusOne_iterate (k : Nat) : ∀ n, k ≤ n → n < 2 ^ 64 →
    sizeMinusOne^[k] n = n - k := by
  induction k with
  | zero => intro n _ _; rfl
  | succ k ih =>
    intro n hk hn
    rw [Function.iterate_succ_apply', ih n (by omega) hn]
    have : n - k = (n - k - 1) + 1 := by omega
    rw [this, sizeMinusOne_succ _ (by omega)]
    omega

/-- One decrement more than the size wraps around to `2^64 - 1`. -/
theorem sizeMinusOne_wraps (n : Nat) (hn : n < 2 ^ 64) :
    sizeMinusOne^[n + 1] n = 2 ^ 64 - 1 := by
  rw [Function.iterate_succ_apply', sizeMinusOne_iterate n n (le_refl n) hn, Nat.sub_self]
  rfl

/-! ### The claims -/

/-- Claim C1: after successful inserts into a fresh tree, `find_overlapping` of an
inserted interval returns its payload.  The code does not do this, in three ways.
(1) An insert shaped like those of the test program (payload 1, `[4096, 4096 + 16384]`)
into a fresh tree does not return, whatever the fuel.  (2) The insert of
`[2^64-1, 2^64-1]` into a fresh tree does return `OPAL_SUCCESS`, and the lookup of that
interval afterwards finds nothing and passes `NULL` to the release.  (3) On the tree
that holds `[10,20]` and, to its right where the insert walk puts an equal key,
`[10,30]`, the exact search for `[10,30]` goes left and ends with `NULL`, and
`find_overlapping` passes that `NULL` to the release. -/
theorem find_after_insert_fails :
    (∀ fuel, (opal_interval_tree_construct rawTree >>= fun t =>
        opal_interval_tree_insert fuel t 1 4096 20480) = .timeout) ∧
    (∀ fuel, (opal_interval_tree_construct rawTree >>= fun t =>
        opal_interval_tree_insert (fuel + 3) t 1 UINT64_MAX UINT64_MAX >>= fun r =>
        pure r.1) = .ok .OPAL_SUCCESS) ∧
    (∀ fuel, (opal_interval_tree_construct rawTree >>= fun t =>
        opal_interval_tree_insert (fuel + 3) t 1 UINT64_MAX UINT64_MAX >>= fun r =>
        opal_interval_tree_find_overlapping (fuel + 2) r.2 UINT64_MAX UINT64_MAX) =
          .crash .segv) ∧
    dataModel sameLowTree = true ∧
    triples sameLowTree = some [(10, 20, 1), (10, 30, 2)] ∧
    (∀ fuel, opal_interval_tree_find_node (fuel + 3) sameLowTree 10 30 true =
        .ok (sameLowTree, NULL)) ∧
    (∀ fuel, opal_interval_tree_find_overlapping (fuel + 3) sameLowTree 10 30 =
        .crash .segv) := by
  refine ⟨?_, ?_, ?_, by decide, by decide, ?_, ?_⟩
  · intro fuel
    rw [construct_rawTree, Res.ok_bind]
    exact insertSpinCheck_sound 5 (by decide!) fuel
  · intro fuel; rfl
  · intro fuel; rfl
  · intro fuel; rfl
  · intro fuel; rfl

/-- Claim C2: on a tree that satisfies the invariants and holds `[low, high]`, delete
returns `OPAL_SUCCESS` and removes one such triple.  On the tree holding `[10,20]` with
`[10,30]` as its right child, which satisfies all the invariants, `delete(10, 30)`
returns `OPAL_ERR_NOT_FOUND` and leaves the tree as it was. -/
theorem delete_misses_present_interval :
    dataModel sameLowTree = true ∧
    triples sameLowTree = some [(10, 20, 1), (10, 30, 2)] ∧
    ∀ fuel, opal_interval_tree_delete (fuel + 3) sameLowTree 10 30 =
      .ok (.OPAL_ERR_NOT_FOUND, sameLowTree) := by
  refine ⟨by decide, by decide, ?_⟩
  intro fuel; rfl

/-- Claim C3: the BST ordering holds after every completed insert and delete on a fresh
tree.  On a fresh tree no insert with `low ≤ high` and `low < 2^64 - 1` completes: it
times out on every fuel, so the caller never gets a tree with a node in it back. -/
theorem first_insert_never_returns (value low high : Nat) (h1 : low ≤ high)
    (h2 : low < UINT64_MAX) :
    ∀ fuel, (opal_interval_tree_construct rawTree >>= fun t =>
      opal_interval_tree_insert fuel t value low high) = .timeout := by
  intro fuel
  rw [construct_rawTree, Res.ok_bind]
  exact insert_on_emptyTree value low high h1 h2 fuel

/-- Claim C3 at the inserts of the example scenario: `[10,20]`, `[5,15]`, `[25,30]`. -/
theorem first_insert_never_returns_witness :
    (10 ≤ 20 ∧ 10 < UINT64_MAX ∧
      ∀ fuel, (opal_interval_tree_construct rawTree >>= fun t =>
        opal_interval_tree_insert fuel t 1 10 20) = .timeout) ∧
    (∀ fuel, (opal_interval_tree_construct rawTree >>= fun t =>
        opal_interval_tree_insert fuel t 2 5 15) = .timeout) ∧
    (∀ fuel, (opal_interval_tree_construct rawTree >>= fun t =>
        opal_interval_tree_insert fuel t 3 25 30) = .timeout) :=
  ⟨⟨by decide, by decide, first_insert_never_returns 1 10 20 (by decide) (by decide)⟩,
    first_insert_never_returns 2 5 15 (by decide) (by decide),
    first_insert_never_returns 3 25 30 (by decide) (by decide)⟩

/-- Claim C4: an insert into a tree that satisfies the red-black colouring leaves one
that does, with a black true root.  On the red-black tree `[10,20]` (black) with right
child `[20,30]` (red), where the new node `[30,40]` would get a red parent, the insert
does not return: it times out on every fuel. -/
theorem insert_into_red_black_tree_never_returns :
    redBlack chainTree = true ∧ dataModel chainTree = true ∧
    ∀ fuel, opal_interval_tree_insert fuel chainTree 3 30 40 = .timeout := by
  refine ⟨by decide, by decide, ?_⟩
  exact insertSpinCheck_sound 8 (by decide!)

/-- Claim C5: a delete on a tree that satisfies the red-black colouring leaves one that
does.  On the five-node red-black tree, `delete(10, 15)` removes a black leaf whose
sibling is red, so the fix-up calls `left_rotate`; that reads the `right` link of the
node it has just taken from the pool.  With a zeroed node in the pool the link is
`NULL` and the delete ends in a null dereference; with an empty pool it ends in the
failed `assert`. -/
theorem delete_fixup_rotation_crashes :
    dataModel (fiveTree [zeroNode] [8]) = true ∧
    redBlack (fiveTree [zeroNode] [8]) = true ∧
    (∀ fuel, opal_interval_tree_delete (fuel + 4) (fiveTree [zeroNode] [8]) 10 15 =
      .crash .segv) ∧
    dataModel (fiveTree [] []) = true ∧
    (∀ fuel, opal_interval_tree_delete (fuel + 4) (fiveTree [] []) 10 15 =
      .crash .assertion) := by
  refine ⟨by decide, by decide, ?_, by decide, ?_⟩
  · intro fuel; rfl
  · intro fuel; rfl

/-- Claim C6: an insert into a tree whose nodes satisfy the `max` equation leaves one
whose nodes do.  On the tree `[30,40]` with left child `[20,25]`, which satisfies it,
the insert of `[10,50]` does not return: it times out on every fuel. -/
theorem insert_into_augmented_tree_never_returns :
    augmented leftChainTree = true ∧ dataModel leftChainTree = true ∧
    ∀ fuel, opal_interval_tree_insert fuel leftChainTree 3 10 50 = .timeout := by
  refine ⟨by decide, by decide, ?_⟩
  exact insertSpinCheck_sound 8 (by decide!)

/-- Claim C7: a delete on a tree whose nodes satisfy the `max` equation leaves one whose
nodes do.  On the tree `[10,20]` with left child `[5,50]`, which satisfies it,
`delete(5, 50)` returns `OPAL_SUCCESS` and leaves `[10,20]` alone in the tree with
`max = 50`: the equation fails at the remaining node. -/
theorem delete_leaves_stale_max :
    dataModel tallLeafTree = true ∧
    ∀ fuel, (opal_interval_tree_delete (fuel + 3) tallLeafTree 5 50 >>= fun r =>
        pure (r.1, augmented r.2, triples r.2, getHigh r.2 3, getMax r.2 3)) =
      .ok (.OPAL_SUCCESS, false, some [(10, 20, 1)], .ok 20, .ok 50) := by
  refine ⟨by decide, ?_⟩
  intro fuel; rfl

/-- Claim C8: after any sequence of inserts and deletes on a fresh tree, the size is the
number of real nodes reachable from `ROOT.left`.  The insert of `[2^64-1, 2^64-1]` into
a fresh tree returns `OPAL_SUCCESS` with the node linked as `ROOT.right`: the size is 1
and no real node is reachable from `ROOT.left`. -/
theorem size_counts_unreachable_node :
    ∀ fuel, (opal_interval_tree_construct rawTree >>= fun t =>
        opal_interval_tree_insert (fuel + 3) t 1 UINT64_MAX UINT64_MAX >>= fun r =>
        pure (r.1, opal_interval_tree_size r.2, realNodes r.2, getRight r.2 ROOT)) =
      .ok (.OPAL_SUCCESS, 1, some 0, .ok 3) := by
  intro fuel; rfl

/-- Claim C9: an insert with `low > high` returns `OPAL_ERR_BAD_PARAM` and leaves the
whole state, free list included, as it was. -/
theorem insert_bad_param (fuel : Nat) (t : Tree) (value low high : Nat) (h : high < low) :
    opal_interval_tree_insert fuel t value low high = .ok (.OPAL_ERR_BAD_PARAM, t) := by
  unfold opal_interval_tree_insert
  rw [if_pos h]
  rfl

/-- Claim C9 at a concrete input: `insert(7, 30, 20)` on a two-node tree. -/
theorem insert_bad_param_witness :
    20 < 30 ∧
    opal_interval_tree_insert 5 sameLowTree 7 30 20 =
      .ok (.OPAL_ERR_BAD_PARAM, sameLowTree) :=
  ⟨by decide, insert_bad_param 5 sameLowTree 7 30 20 (by decide)⟩

/-- Claim C10: when the pooled allocator yields no node, an insert with `low ≤ high`
returns `OPAL_ERR_OUT_OF_RESOURCE`; the state it leaves is the one the allocator call
left, with the same memory (nodes, links, colours, `max` values), `tree_size` and lock,
and it is the state before the call when the pool was empty. -/
theorem insert_out_of_resource (fuel : Nat) (t : Tree) (value low high : Nat)
    (h : low ≤ high) (hp : (opal_free_list_get t).1 = NULL) :
    opal_interval_tree_insert fuel t value low high =
        .ok (.OPAL_ERR_OUT_OF_RESOURCE, (opal_free_list_get t).2) ∧
      (opal_free_list_get t).2.mem = t.mem ∧
      (opal_free_list_get t).2.tree_size = t.tree_size ∧
      (opal_free_list_get t).2.lock = t.lock ∧
      (t.free_list = [] → (opal_free_list_get t).2 = t) := by
  refine ⟨?_, ?_, ?_, ?_, ?_⟩
  · unfold opal_interval_tree_insert
    rw [if_neg (by omega)]
    simp only
    rw [if_pos hp]
    rfl
  · unfold opal_free_list_get; cases t.free_list <;> rfl
  · unfold opal_free_list_get; cases t.free_list <;> rfl
  · unfold opal_free_list_get; cases t.free_list <;> rfl
  · intro he; unfold opal_free_list_get; rw [he]

/-- Claim C10 at a concrete input: `insert(7, 1, 2)` on a two-node tree with an empty
pool. -/
theorem insert_out_of_resource_witness :
    1 ≤ 2 ∧ (opal_free_list_get tallLeafTree).1 = NULL ∧
    opal_interval_tree_insert 5 tallLeafTree 7 1 2 =
      .ok (.OPAL_ERR_OUT_OF_RESOURCE, tallLeafTree) :=
  ⟨by decide, rfl, (insert_out_of_resource 5 tallLeafTree 7 1 2 (by decide) rfl).1⟩

/-- Claim C11: on a tree that satisfies the invariants, a delete of an interval that no
real node has returns `OPAL_ERR_NOT_FOUND` and changes nothing.  The exact search
starts at the `ROOT` sentinel and compares the query with it: `delete(2^64-1, 0)`
matches `ROOT` (key `2^64-1`, `high` 0 in memory that was zero) on the empty tree and on
the three-node tree, returns `OPAL_SUCCESS`, puts `ROOT` on the free list and lowers
`tree_size` (from 0 to `2^64-1` on the empty tree, so `size()` is -1). -/
theorem delete_of_root_key_removes_root :
    dataModel emptyTree = true ∧ triples emptyTree = some [] ∧
    (∀ fuel, (opal_interval_tree_delete (fuel + 1) emptyTree UINT64_MAX 0 >>= fun r =>
        pure (r.1, r.2.free_list, r.2.tree_size, opal_interval_tree_size r.2)) =
      .ok (.OPAL_SUCCESS, [1, 3, 4], 2 ^ 64 - 1, -1)) ∧
    dataModel scenarioTree = true ∧
    triples scenarioTree = some [(5, 15, 2), (10, 20, 1), (25, 30, 3)] ∧
    (∀ fuel, (opal_interval_tree_delete (fuel + 1) scenarioTree UINT64_MAX 0 >>= fun r =>
        pure (r.1, r.2.free_list, r.2.tree_size, getParent r.2 3)) =
      .ok (.OPAL_SUCCESS, [1], 2, .ok NIL)) := by
  refine ⟨by decide, by decide, ?_, by decide, by decide, ?_⟩
  · intro fuel; rfl
  · intro fuel; rfl

/-- Claim C12: a lookup of an interval that no real node has returns `NULL` as a normal
result, without touching a null node.  On every tree that satisfies the invariants and
whose `ROOT` is held, for every interval that no real node has (and that is not the
pair stored in `ROOT`), `opal_interval_tree_find_overlapping` passes the `NULL` it got
from the search to `opal_interval_tree_node_release`, which dereferences it. -/
theorem find_overlapping_of_absent_interval_dereferences_null {t : Tree}
    (hd : dataModel t = true) {r : Node} {s : Shape} (hr : t.mem[ROOT]? = some r)
    (hs : shape t = some s) (hrc : r.ref_count ≠ 0) {low high : Nat}
    (habs : ∀ q ∈ s.nodes, ¬(q.2.low = low ∧ q.2.high = high))
    (hroot : ¬(r.low = low ∧ r.high = high)) (k : Nat) :
    opal_interval_tree_find_overlapping (t.mem.length + 1 + k) t low high =
      .crash .segv :=
  find_overlapping_absent hd hr hs hrc habs hroot k

/-- Claim C12 at a concrete input: the lookup of `[12,18]`, which lies inside the stored
`[10,20]`, on the tree holding `[10,20]` and `[10,30]`. -/
theorem find_overlapping_of_absent_interval_dereferences_null_witness :
    dataModel sameLowTree = true ∧ shape sameLowTree = some sameLowShape ∧
    opal_interval_tree_find_overlapping (sameLowTree.mem.length + 1 + 0) sameLowTree 12 18 =
      .crash .segv :=
  ⟨by decide, by decide,
    @find_overlapping_of_absent_interval_dereferences_null sameLowTree (by decide)
      (rootSentinel 3) sameLowShape (by decide) (by decide) (by decide) 12 18 (by decide)
      (by decide) 0⟩

/-- Claim C13, as stated, fails: with `complete` true the claim has the action called
on the nodes whose interval the query contains.  Over `[10,20]`, `[30,40]`, `[50,150]`
the call `traverse(0, 100, true)` calls the action on no node, and `traverse(12, 18,
true)` calls it on `[10,20]`, which the query does not contain. -/
theorem traverse_complete_skips_contained_intervals :
    triples rangesTree = some [(10, 20, 1), (30, 40, 2), (50, 150, 3)] ∧
    (∀ fuel, opal_interval_tree_traverse (fuel + 3) rangesTree 0 100 true 7 =
      .ok (.OPAL_SUCCESS, rangesTree, [])) ∧
    (∀ fuel, opal_interval_tree_traverse (fuel + 3) rangesTree 12 18 true 7 =
      .ok (.OPAL_SUCCESS, rangesTree, [(10, 20, 1)])) := by
  refine ⟨by decide, ?_, ?_⟩
  · intro fuel; rfl
  · intro fuel; rfl

/-- Claim C13, amended: with `complete` true the action is called, in in-order, on
exactly the real nodes whose interval contains the query range
(`node.low ≤ low` and `high ≤ node.high`). -/
theorem traverse_complete_reports_containing_intervals {t : Tree} {s : Shape}
    (hs : shape t = some s) (low high : Nat) {action : Ptr} (ha : action ≠ NULL)
    (k : Nat) :
    opal_interval_tree_traverse (t.mem.length + k) t low high true action =
      .ok (.OPAL_SUCCESS, t,
        (s.nodes.filter (fun q => decide (q.2.low ≤ low ∧ high ≤ q.2.high))).map
          (fun q => (q.2.low, q.2.high, q.2.data))) := by
  rw [traverse_of_shape hs low high true ha k]
  unfold Shape.calls
  simp only [test_complete]

/-- Claim C13, amended, at a concrete input: over `[10,20]`, `[30,40]`, `[50,150]` the
call `traverse(60, 100, true)` calls the action on `[50,150]` alone. -/
theorem traverse_complete_reports_containing_intervals_witness :
    shape rangesTree = some rangesShape ∧ (7 : Ptr) ≠ NULL ∧
    opal_interval_tree_traverse (rangesTree.mem.length + 0) rangesTree 60 100 true 7 =
      .ok (.OPAL_SUCCESS, rangesTree, [(50, 150, 3)]) :=
  ⟨by decide, by decide,
    @traverse_complete_reports_containing_intervals rangesTree rangesShape (by decide)
      60 100 7 (by decide) 0⟩

/-- Claim C14: with `complete` false, on a tree whose intervals all have `low ≤ high`
and for a query with `low ≤ high`, the action is called, in in-order, on exactly the
real nodes whose closed interval meets the closed query range
(`node.low ≤ high` and `low ≤ node.high`). -/
theorem traverse_partial_reports_intersecting_intervals {t : Tree} {s : Shape}
    (hs : shape t = some s) (hn : ∀ q ∈ s.nodes, q.2.low ≤ q.2.high) {low high : Nat}
    (hq : low ≤ high) {action : Ptr} (ha : action ≠ NULL) (k : Nat) :
    opal_interval_tree_traverse (t.mem.length + k) t low high false action =
      .ok (.OPAL_SUCCESS, t,
        (s.nodes.filter (fun q => decide (q.2.low ≤ high ∧ low ≤ q.2.high))).map
          (fun q => (q.2.low, q.2.high, q.2.data))) := by
  rw [traverse_of_shape hs low high false ha k]
  unfold Shape.calls
  have e : s.nodes.filter (fun q => traversal_test low high false q.2) =
      s.nodes.filter (fun q => decide (q.2.low ≤ high ∧ low ≤ q.2.high)) :=
    List.filter_congr (fun q hqm => test_partial low high q.2 hq (hn q hqm))
  rw [e]

/-- Claim C14 at a concrete input: over `[10,20]`, `[30,40]`, `[50,150]` the call
`traverse(15, 35, false)` calls the action on `[10,20]` and `[30,40]`. -/
theorem traverse_partial_reports_intersecting_intervals_witness :
    shape rangesTree = some rangesShape ∧
    (∀ q ∈ rangesShape.nodes, q.2.low ≤ q.2.high) ∧ 15 ≤ 35 ∧ (7 : Ptr) ≠ NULL ∧
    opal_interval_tree_traverse (rangesTree.mem.length + 0) rangesTree 15 35 false 7 =
      .ok (.OPAL_SUCCESS, rangesTree, [(10, 20, 1), (30, 40, 2)]) :=
  ⟨by decide, by decide, by decide, by decide,
    @traverse_partial_reports_intersecting_intervals rangesTree rangesShape (by decide)
      (by decide) 15 35 (by decide) 7 (by decide) 0⟩
/-- Claim C15: on a well-formed tree, with an action, the calls `traverse` makes are the
in-order sequence of the real nodes that pass the test, each with its own interval and
payload.  The nodes of that sequence are met once each, none is a sentinel, and when
the tree has the BST ordering the keys reported never decrease. -/
theorem traverse_reports_in_order {t : Tree} (hw : wellLinked t = true) (low high : Nat)
    (complete : Bool) {action : Ptr} (ha : action ≠ NULL) :
    ∃ s, shape t = some s ∧
      (∀ k, opal_interval_tree_traverse (t.mem.length + k) t low high complete action =
        .ok (.OPAL_SUCCESS, t,
          (s.nodes.filter (fun q => traversal_test low high complete q.2)).map
            (fun q => (q.2.low, q.2.high, q.2.data)))) ∧
      (s.nodes.map Prod.fst).Nodup ∧
      (∀ q ∈ s.nodes, q.1 ≠ ROOT ∧ q.1 ≠ NIL ∧ t.mem[q.1]? = some q.2) ∧
      (bstOrdered t = true →
        (((s.nodes.filter (fun q => traversal_test low high complete q.2)).map
          (fun q => (q.2.low, q.2.high, q.2.data))).map Prod.fst).Pairwise (· ≤ ·)) := by
  obtain ⟨s, hs, hnd, _⟩ := wellLinked_shape hw
  refine ⟨s, hs, fun k => traverse_of_shape hs low high complete ha k, hnd, ?_, ?_⟩
  · have hs2 := hs
    unfold shape at hs2
    cases hr : t.mem[ROOT]? with
    | none => rw [hr] at hs2; cases hs2
    | some r =>
      rw [hr] at hs2
      intro q hq
      have := shapeAt_nodes t _ _ _ hs2 q hq
      exact ⟨this.1, this.2.1, this.2.2.2⟩
  · intro hb
    unfold bstOrdered at hb
    rw [hs] at hb
    exact calls_sorted low high complete s hb

/-- Claim C15 at a concrete input: `traverse(0, 200, false)` over `[10,20]`, `[30,40]`,
`[50,150]`. -/
theorem traverse_reports_in_order_witness :
    wellLinked rangesTree = true ∧ (7 : Ptr) ≠ NULL ∧
    ∃ s, shape rangesTree = some s ∧
      (∀ k, opal_interval_tree_traverse (rangesTree.mem.length + k) rangesTree 0 200 false 7 =
        .ok (.OPAL_SUCCESS, rangesTree,
          (s.nodes.filter (fun q => traversal_test 0 200 false q.2)).map
            (fun q => (q.2.low, q.2.high, q.2.data)))) ∧
      (s.nodes.map Prod.fst).Nodup ∧
      (∀ q ∈ s.nodes, q.1 ≠ ROOT ∧ q.1 ≠ NIL ∧ rangesTree.mem[q.1]? = some q.2) ∧
      (bstOrdered rangesTree = true →
        (((s.nodes.filter (fun q => traversal_test 0 200 false q.2)).map
          (fun q => (q.2.low, q.2.high, q.2.data))).map Prod.fst).Pairwise (· ≤ ·)) :=
  ⟨by decide, by decide,
    @traverse_reports_in_order rangesTree (by decide) 0 200 false 7 (by decide)⟩

/-- Claim C16: `traverse` never changes the tree.  With a null action it returns
`OPAL_ERR_BAD_PARAM` and calls nothing; whenever it returns, the state is the one it
was given; and with an action, on a tree whose links `shape` can follow, it returns
`OPAL_SUCCESS` with that state. -/
theorem traverse_is_read_only (t : Tree) (low high : Nat) (complete : Bool) (action : Ptr) :
    (∀ fuel, opal_interval_tree_traverse fuel t low high complete NULL =
      .ok (.OPAL_ERR_BAD_PARAM, t, [])) ∧
    (∀ fuel r, opal_interval_tree_traverse fuel t low high complete action = .ok r →
      r.2.1 = t) ∧
    (action ≠ NULL → ∀ s, shape t = some s → ∀ k, ∃ calls,
      opal_interval_tree_traverse (t.mem.length + k) t low high complete action =
        .ok (.OPAL_SUCCESS, t, calls)) := by
  refine ⟨fun fuel => rfl, fun fuel r h => traverse_keeps_state fuel t low high complete
    action r h, fun ha s hs k => ⟨_, traverse_of_shape hs low high complete ha k⟩⟩

/-- Claim C16 at a concrete input: `traverse(0, 100, true)` over `[10,20]`, `[30,40]`,
`[50,150]`, with a null action and with an action. -/
theorem traverse_is_read_only_witness :
    opal_interval_tree_traverse 5 rangesTree 0 100 true NULL =
      .ok (.OPAL_ERR_BAD_PARAM, rangesTree, []) ∧
    (7 : Ptr) ≠ NULL ∧ shape rangesTree = some rangesShape ∧
    ∃ calls, opal_interval_tree_traverse (rangesTree.mem.length + 0) rangesTree 0 100 true 7 =
      .ok (.OPAL_SUCCESS, rangesTree, calls) :=
  ⟨(traverse_is_read_only rangesTree 0 100 true 7).1 5, by decide, by decide,
    (traverse_is_read_only rangesTree 0 100 true 7).2.2 (by decide) rangesShape
      (by decide) 0⟩

/-- Claim C17: inserting distinct intervals into a fresh tree and deleting each again
makes every delete succeed and leaves size 0.  With the one interval `[10,20]` the
insert does not return, so the round trip times out on every fuel.  With the one
interval `[2^64-1, 2^64-1]` the insert returns `OPAL_SUCCESS`, the delete of the same
interval returns `OPAL_ERR_NOT_FOUND`, the size stays 1, and the lookup afterwards
dereferences `NULL`. -/
theorem round_trip_fails :
    (∀ fuel, (opal_interval_tree_construct rawTree >>= fun t =>
        opal_interval_tree_insert fuel t 1 10 20 >>= fun r =>
        opal_interval_tree_delete fuel r.2 10 20) = .timeout) ∧
    (∀ fuel, (opal_interval_tree_construct rawTree >>= fun t =>
        opal_interval_tree_insert (fuel + 3) t 1 UINT64_MAX UINT64_MAX >>= fun r =>
        opal_interval_tree_delete (fuel + 2) r.2 UINT64_MAX UINT64_MAX >>= fun d =>
        pure (r.1, d.1, opal_interval_tree_size d.2)) =
      .ok (.OPAL_SUCCESS, .OPAL_ERR_NOT_FOUND, 1)) ∧
    (∀ fuel, (opal_interval_tree_construct rawTree >>= fun t =>
        opal_interval_tree_insert (fuel + 3) t 1 UINT64_MAX UINT64_MAX >>= fun r =>
        opal_interval_tree_delete (fuel + 2) r.2 UINT64_MAX UINT64_MAX >>= fun d =>
        opal_interval_tree_find_overlapping (fuel + 2) d.2 UINT64_MAX UINT64_MAX) =
      .crash .segv) := by
  refine ⟨?_, ?_, ?_⟩
  · intro fuel
    rw [construct_rawTree, Res.ok_bind,
      insert_on_emptyTree 1 10 20 (by decide) (by decide) fuel, Res.timeout_bind]
  · intro fuel; rfl
  · intro fuel; rfl

/-- Claim C18: deleting an interval twice gives `OPAL_SUCCESS` then
`OPAL_ERR_NOT_FOUND`, and a lookup after the first delete gives NotFound.  The example
scenario does not get past its first insert: it times out on every fuel.  On the tree
the scenario describes, the two deletes of `[5,15]` do return `OPAL_SUCCESS` (size 2)
and `OPAL_ERR_NOT_FOUND`, but the lookup of `[5,15]` after the first delete
dereferences `NULL`. -/
theorem delete_twice_scenario_fails :
    (∀ fuel, (opal_interval_tree_construct rawTree >>= fun t =>
        opal_interval_tree_insert fuel t 1 10 20 >>= fun r1 =>
        opal_interval_tree_insert fuel r1.2 2 5 15 >>= fun r2 =>
        opal_interval_tree_insert fuel r2.2 3 25 30 >>= fun r3 =>
        opal_interval_tree_delete fuel r3.2 5 15) = .timeout) ∧
    dataModel scenarioTree = true ∧
    triples scenarioTree = some [(5, 15, 2), (10, 20, 1), (25, 30, 3)] ∧
    (∀ fuel, (opal_interval_tree_delete (fuel + 3) scenarioTree 5 15 >>= fun r =>
        opal_interval_tree_delete (fuel + 3) r.2 5 15 >>= fun d =>
        pure (r.1, opal_interval_tree_size r.2, triples r.2, d.1)) =
      .ok (.OPAL_SUCCESS, 2, some [(10, 20, 1), (25, 30, 3)], .OPAL_ERR_NOT_FOUND)) ∧
    (∀ fuel, (opal_interval_tree_delete (fuel + 3) scenarioTree 5 15 >>= fun r =>
        opal_interval_tree_find_overlapping (fuel + 3) r.2 5 15) = .crash .segv) := by
  refine ⟨?_, by decide, by decide, ?_, ?_⟩
  · intro fuel
    rw [construct_rawTree, Res.ok_bind,
      insert_on_emptyTree 1 10 20 (by decide) (by decide) fuel, Res.timeout_bind]
  · intro fuel; rfl
  · intro fuel; rfl

/-- Claim C19: inserting the same interval twice makes both inserts succeed and leaves
two nodes with it in the tree.  On the tree that holds `[10,20]`, which satisfies the
invariants, the insert of a second `[10,20]` does not return.  Where inserts do return,
for `[2^64-1, 2^64-1]` on a fresh tree, both return `OPAL_SUCCESS` and the size is 2,
but the first node hangs from `ROOT.right`, the second is linked nowhere, and no real
node is reachable from `ROOT.left`. -/
theorem duplicate_insert_fails :
    dataModel singleTree = true ∧
    (∀ fuel, opal_interval_tree_insert fuel singleTree 2 10 20 = .timeout) ∧
    (∀ fuel, (opal_interval_tree_construct rawTree >>= fun t =>
        opal_interval_tree_insert (fuel + 3) t 1 UINT64_MAX UINT64_MAX >>= fun r =>
        opal_interval_tree_insert (fuel + 2) r.2 2 UINT64_MAX UINT64_MAX >>= fun d =>
        pure (r.1, d.1, opal_interval_tree_size d.2, realNodes d.2, getLeft d.2 ROOT,
          getRight d.2 ROOT)) =
      .ok (.OPAL_SUCCESS, .OPAL_SUCCESS, 2, some 0, .ok NIL, .ok 3)) := by
  refine ⟨by decide, insertSpinCheck_sound 8 (by decide!), ?_⟩
  intro fuel; rfl

/-- Claim C20: the constructor, run on any memory that has room for the two sentinels,
leaves a valid empty tree: `NIL` black with its three links on `NIL` and `max = 0`,
`ROOT` black with both children `NIL` and key `2^64 - 1`, `tree_size = 0` so that
`size()` is 0, and every invariant of the data model holding. -/
theorem construct_gives_valid_empty_tree (t : Tree) (h : 2 < t.mem.length) :
    ∃ t1 r n, opal_interval_tree_construct t = .ok t1 ∧
      t1.mem[ROOT]? = some r ∧ t1.mem[NIL]? = some n ∧
      (n.color = .BLACK ∧ n.left = NIL ∧ n.right = NIL ∧ n.parent = NIL ∧ n.max = 0) ∧
      (r.color = .BLACK ∧ r.left = NIL ∧ r.right = NIL ∧ r.low = 2 ^ 64 - 1) ∧
      t1.tree_size = 0 ∧ opal_interval_tree_size t1 = 0 ∧
      bstOrdered t1 = true ∧ redBlack t1 = true ∧ augmented t1 = true ∧
      sizeCounts t1 = true ∧ dataModel t1 = true := by
  obtain ⟨mem, fl, ts, lk⟩ := t
  match mem, h with
  | a :: b :: c :: rest, _ =>
    refine ⟨⟨a :: ⟨.BLACK, NIL, NIL, NIL, 1, 0, b.data, UINT64_MAX, b.high, b.max⟩ ::
      ⟨.BLACK, NIL, NIL, NIL, 1, 0, c.data, c.low, c.high, 0⟩ :: rest, fl, 0, lk⟩,
      ⟨.BLACK, NIL, NIL, NIL, 1, 0, b.data, UINT64_MAX, b.high, b.max⟩,
      ⟨.BLACK, NIL, NIL, NIL, 1, 0, c.data, c.low, c.high, 0⟩,
      ?_, by simp [ROOT], by simp [NIL], ⟨rfl, rfl, rfl, rfl, rfl⟩, ⟨rfl, rfl, rfl, rfl⟩,
      rfl, rfl, ?_, ?_, ?_, ?_, ?_⟩
    · simp [opal_interval_tree_construct, update, load, store, ROOT, NIL, NULL, bind,
        Res.bind, pure]
    all_goals
      simp [dataModel, wellLinked, bstOrdered, redBlack, augmented, sizeCounts,
        refCounted, realNodes, shape, shapeAt, ROOT, NIL, NULL, Shape.nodes, Shape.bst,
        Shape.linked, Shape.noRedRed, Shape.blackHeight, Shape.augmented]

/-- Claim C20 at a concrete input: the constructor on five zeroed records. -/
theorem construct_gives_valid_empty_tree_witness :
    2 < rawTree.mem.length ∧
    ∃ t1 r n, opal_interval_tree_construct rawTree = .ok t1 ∧
      t1.mem[ROOT]? = some r ∧ t1.mem[NIL]? = some n ∧
      (n.color = .BLACK ∧ n.left = NIL ∧ n.right = NIL ∧ n.parent = NIL ∧ n.max = 0) ∧
      (r.color = .BLACK ∧ r.left = NIL ∧ r.right = NIL ∧ r.low = 2 ^ 64 - 1) ∧
      t1.tree_size = 0 ∧ opal_interval_tree_size t1 = 0 ∧
      bstOrdered t1 = true ∧ redBlack t1 = true ∧ augmented t1 = true ∧
      sizeCounts t1 = true ∧ dataModel t1 = true :=
  ⟨by decide, construct_gives_valid_empty_tree rawTree (by decide)⟩

/-- Claim C21: the exact search never returns the `ROOT` sentinel, so on an empty tree
every lookup is NotFound and every delete is `OPAL_ERR_NOT_FOUND`.  The search starts at
`&tree->root` and tests the sentinel like any node.  On the empty tree the search for
`(2^64-1, 0)` returns `ROOT`.  On the empty tree constructed over memory whose root
cell holds `high = 5` and `data = 77`, `find_overlapping(2^64-1, 5)` returns 77, a
payload nobody inserted, and `delete(2^64-1, 5)` returns `OPAL_SUCCESS` with `ROOT` on
the free list. -/
theorem exact_search_returns_root_sentinel :
    dataModel emptyTree = true ∧
    (∀ fuel, (opal_interval_tree_find_node (fuel + 1) emptyTree UINT64_MAX 0 true >>=
      fun r => pure r.2) = .ok ROOT) ∧
    (∀ fuel, (opal_interval_tree_construct usedRawTree >>= fun t =>
        opal_interval_tree_find_overlapping (fuel + 1) t UINT64_MAX 5 >>= fun r =>
        pure (dataModel t, triples t, r.1)) = .ok (true, some [], 77)) ∧
    (∀ fuel, (opal_interval_tree_construct usedRawTree >>= fun t =>
        opal_interval_tree_delete (fuel + 1) t UINT64_MAX 5 >>= fun r =>
        pure (r.1, r.2.free_list)) = .ok (.OPAL_SUCCESS, [ROOT, 3, 4])) := by
  refine ⟨by decide, ?_, ?_, ?_⟩
  · intro fuel; rfl
  · intro fuel; rfl
  · intro fuel; rfl

/-- Claim C22: a node goes back to the pool only when its count has just reached 0, and
delete gives up the removed node through that protocol.  The release does work that
way: from count 2 it leaves 1 and the pool alone, from count 1 it leaves 0 and hands
the node over.  The delete does not use it: `delete(5, 50)` hands the removed node to
the pool with count 2 (the reference its own search took), and with count 3 when a
query held one more. -/
theorem delete_frees_held_node :
    (opal_interval_tree_node_release heldLeafTree 4 >>= fun t =>
      pure (t.free_list, getRefCount t 4)) = .ok ([], .ok 1) ∧
    (opal_interval_tree_node_release tallLeafTree 4 >>= fun t =>
      pure (t.free_list, getRefCount t 4)) = .ok ([4], .ok 0) ∧
    dataModel tallLeafTree = true ∧
    (∀ fuel, (opal_interval_tree_delete (fuel + 3) tallLeafTree 5 50 >>= fun r =>
      pure (r.1, r.2.free_list, getRefCount r.2 4)) = .ok (.OPAL_SUCCESS, [4], .ok 2)) ∧
    dataModel heldLeafTree = true ∧
    (∀ fuel, (opal_interval_tree_delete (fuel + 3) heldLeafTree 5 50 >>= fun r =>
      pure (r.1, r.2.free_list, getRefCount r.2 4)) = .ok (.OPAL_SUCCESS, [4], .ok 3)) := by
  refine ⟨rfl, rfl, by decide, ?_, by decide, ?_⟩
  · intro fuel; rfl
  · intro fuel; rfl

/-- Claim C23: `opal_interval_tree_insert_node` terminates after one splice, leaving its
retry loop as soon as the compare-and-set succeeds.  On the empty tree, for every new
node with a key under `2^64 - 1`, the compare-and-set of the first turn does succeed
(`ret` is true, the node is the left child of `ROOT`), and the function does not
return: it times out on every fuel. -/
theorem insert_node_never_leaves_retry_loop (value low high : Nat)
    (h : low < UINT64_MAX) :
    insert_node_place (insertingState 2 NIL (newNode NULL NIL NIL 1 value low high)) 3 ROOT =
      .ok (insertingState 2 3 (newNode ROOT NIL NIL 1 value low high), true) ∧
    ∀ fuel, opal_interval_tree_insert_node fuel
      (insertingState 1 NIL (newNode 0 0 0 1 value low high)) 3 = .timeout := by
  refine ⟨place_first value low high h, ?_⟩
  intro fuel
  have hinit : insert_node_init (insertingState 1 NIL (newNode 0 0 0 1 value low high)) 3 =
      .ok (insertingState 1 NIL (newNode NULL NIL NIL 1 value low high)) := rfl
  unfold opal_interval_tree_insert_node
  rw [hinit, Res.ok_bind, retry_on_emptyTree value low high h fuel]
  rfl

/-- Claim C23 at a concrete input: the new node `[10,20]` on the empty tree, which
satisfies the invariants. -/
theorem insert_node_never_leaves_retry_loop_witness :
    dataModel (insertingState 1 NIL (newNode 0 0 0 1 1 10 20)) = true ∧
    10 < UINT64_MAX ∧
    insert_node_place (insertingState 2 NIL (newNode NULL NIL NIL 1 1 10 20)) 3 ROOT =
      .ok (insertingState 2 3 (newNode ROOT NIL NIL 1 1 10 20), true) ∧
    ∀ fuel, opal_interval_tree_insert_node fuel
      (insertingState 1 NIL (newNode 0 0 0 1 1 10 20)) 3 = .timeout :=
  ⟨by decide, by decide, insert_node_never_leaves_retry_loop 1 10 20 (by decide)⟩

/-- Claim C24: a rotation at a node with a real child on the rotated side yields a
well-formed tree with the same in-order sequence.  `left_rotate` at the top of the
five-node tree reads the `right` link of the copy it has just taken from the pool: with
a zeroed pool node it dereferences `NULL`, with an empty pool its `assert` fails.
`right_rotate` at the top of the two-node tree returns, and leaves the copy of
`[30,40]` with its new parent `[20,25]` as its left child, `NULL` as its right child and
the colour red in place of black: the links no longer form a tree. -/
theorem rotations_break_the_tree :
    wellLinked (fiveTree [zeroNode] [8]) = true ∧
    left_rotate (fiveTree [zeroNode] [8]) 3 = .crash .segv ∧
    wellLinked (fiveTree [] []) = true ∧
    left_rotate (fiveTree [] []) 3 = .crash .assertion ∧
    wellLinked leftChainTree = true ∧
    triples leftChainTree = some [(20, 25, 2), (30, 40, 1)] ∧
    getColor leftChainTree 3 = .ok .BLACK ∧
    (right_rotate leftChainTree 3 >>= fun t =>
      pure (shape t, getLeft t ROOT, getRight t 4, getParent t 5, getLeft t 5, getRight t 5,
        getColor t 5)) =
      .ok (none, .ok 4, .ok 5, .ok 4, .ok 4, .ok NULL, .ok .RED) := by
  refine ⟨by decide, rfl, by decide, rfl, by decide, by decide, rfl, rfl⟩

/-- Claim C25: after a rotation the node that moved down has
`max = max(high, left.max, right.max)` over its new children and the node that moved up
has the `max` the rotated node had.  `left_rotate`, run with a pooled node whose stale
links happen to be those of the rotated node, moves `[20,25]` down over `[10,15]`
(max 15) and `[25,28]` (max 28) and leaves its `max` at 45.  `right_rotate` on the tree
`[30,40]` over `[20,25]` moves `[20,25]` up and leaves its `max` at 25, where the
rotated node had 40. -/
theorem rotations_leave_stale_max :
    augmented (fiveTree [luckyNode] [8]) = true ∧
    (left_rotate (fiveTree [luckyNode] [8]) 3 >>= fun t =>
      pure (triples t, getLeft t 5, getHigh t 8, getLeft t 8, getMax t 4, getRight t 8,
        getMax t 6, getMax t 8)) =
      .ok (some [(10, 15, 2), (20, 25, 1), (25, 28, 4), (30, 35, 3), (40, 45, 5)],
        .ok 8, .ok 25, .ok 4, .ok 15, .ok 6, .ok 28, .ok 45) ∧
    augmented leftChainTree = true ∧
    getMax leftChainTree 3 = .ok 40 ∧
    (right_rotate leftChainTree 3 >>= fun t =>
      pure (getLeft t ROOT, getHigh t 4, getRight t 4, getMax t 5, getMax t 4)) =
      .ok (.ok 4, .ok 25, .ok 5, .ok 40, .ok 25) := by
  refine ⟨by decide, rfl, by decide, rfl, rfl⟩
/-- Claim C26: on a well-formed tree `opal_interval_tree_destroy` returns `OPAL_SUCCESS`
and hands every real node reachable from `ROOT.left` to the pool exactly once, and
never a sentinel.  The list `handed` of addresses it puts in front of the free list is
a rearrangement of the addresses of the nodes of the tree, without repetition, and
holds neither `ROOT` nor `NIL`; memory is as it was. -/
theorem destroy_hands_back_every_node {t : Tree} (hw : wellLinked t = true) :
    ∃ s handed, shape t = some s ∧
      (∀ k, ∃ t1, opal_interval_tree_destroy (t.mem.length + 1 + k) t =
          .ok (.OPAL_SUCCESS, t1) ∧
        t1.mem = t.mem ∧ t1.free_list = handed ++ t.free_list) ∧
      handed.Perm (s.nodes.map Prod.fst) ∧ handed.Nodup ∧ ROOT ∉ handed ∧ NIL ∉ handed := by
  obtain ⟨s, hs, hnd, _⟩ := wellLinked_shape hw
  have hperm : ((s.handed ++ s.top).reverse).Perm (s.nodes.map Prod.fst) :=
    (List.reverse_perm _).trans (handed_perm s)
  have hnodes : ∀ q ∈ s.nodes, q.1 ≠ ROOT ∧ q.1 ≠ NIL := by
    have hs2 := hs
    unfold shape at hs2
    cases hr : t.mem[ROOT]? with
    | none => rw [hr] at hs2; cases hs2
    | some r =>
      rw [hr] at hs2
      intro q hq
      have := shapeAt_nodes t _ _ _ hs2 q hq
      exact ⟨this.1, this.2.1⟩
  refine ⟨s, (s.handed ++ s.top).reverse, hs, ?_, hperm, hperm.nodup_iff.2 hnd, ?_, ?_⟩
  · intro k
    exact ⟨_, destroy_of_wellLinked hw hs k, rfl, rfl⟩
  · intro hmem
    obtain ⟨q, hq, he⟩ := List.mem_map.1 (hperm.mem_iff.1 hmem)
    exact (hnodes q hq).1 he
  · intro hmem
    obtain ⟨q, hq, he⟩ := List.mem_map.1 (hperm.mem_iff.1 hmem)
    exact (hnodes q hq).2 he

/-- Claim C26 at a concrete input: the destruction of the tree `[10,20]` over `[5,15]`
and `[25,30]` hands over the addresses 4, 5 and 3. -/
theorem destroy_hands_back_every_node_witness :
    wellLinked scenarioTree = true ∧
    opal_interval_tree_destroy 6 scenarioTree =
      .ok (.OPAL_SUCCESS, ⟨scenarioTree.mem, [3, 5, 4], 2 ^ 64 - 1, 0⟩) ∧
    ∃ s handed, shape scenarioTree = some s ∧
      (∀ k, ∃ t1, opal_interval_tree_destroy (scenarioTree.mem.length + 1 + k) scenarioTree =
          .ok (.OPAL_SUCCESS, t1) ∧
        t1.mem = scenarioTree.mem ∧ t1.free_list = handed ++ scenarioTree.free_list) ∧
      handed.Perm (s.nodes.map Prod.fst) ∧ handed.Nodup ∧ ROOT ∉ handed ∧ NIL ∉ handed :=
  ⟨by decide, by decide, @destroy_hands_back_every_node scenarioTree (by decide)⟩

/-- Claim C27: after the destruction of a well-formed tree of `n` nodes with
`tree_size = n`, `tree_size` is 0.  The walk starts at `&tree->root` and decrements for
the sentinel as well, `n + 1` times in all: `tree_size` ends at `2^64 - 1` and `size()`
returns -1. -/
theorem destroy_wraps_tree_size {t : Tree} (hw : wellLinked t = true)
    (hc : sizeCounts t = true) (hlt : t.tree_size < 2 ^ 64) (k : Nat) :
    (opal_interval_tree_destroy (t.mem.length + 1 + k) t >>= fun r =>
      pure (r.1, r.2.tree_size, opal_interval_tree_size r.2)) =
      .ok (.OPAL_SUCCESS, 2 ^ 64 - 1, -1) := by
  obtain ⟨s, hs, _, _⟩ := wellLinked_shape hw
  have hn : s.nodes.length = t.tree_size := by
    unfold sizeCounts realNodes at hc
    rw [hs] at hc
    simpa using hc
  rw [destroy_of_wellLinked hw hs k, Res.ok_bind, hn]
  have hm : toInt32 (2 ^ 64 - 1) = -1 := by decide
  simp only [sizeMinusOne_wraps t.tree_size hlt, opal_interval_tree_size, hm]
  rfl

/-- Claim C27 at a concrete input: the tree of three nodes with `tree_size = 3`. -/
theorem destroy_wraps_tree_size_witness :
    wellLinked scenarioTree = true ∧ sizeCounts scenarioTree = true ∧
    scenarioTree.tree_size < 2 ^ 64 ∧
    (opal_interval_tree_destroy (scenarioTree.mem.length + 1 + 0) scenarioTree >>= fun r =>
      pure (r.1, r.2.tree_size, opal_interval_tree_size r.2)) =
      .ok (.OPAL_SUCCESS, 2 ^ 64 - 1, -1) :=
  ⟨by decide, by decide, by decide,
    @destroy_wraps_tree_size scenarioTree (by decide) (by decide) (by decide) 0⟩

/-- Claim C28: a lookup that finds its interval and a successful insert leave every
reference count as it was, and the new node with count 1.  The lookup does: finding
`[10,20]` leaves the state as it was.  The insert does not: the one insert that
returns, of `[2^64-1, 2^64-1]` into a fresh tree, retains `ROOT` at the start of each of
its two turns and never releases it, so the count of `ROOT` goes from 1 to 3 (the new
node has 1); an insert of another key, here `[30,40]` into the tree holding `[10,20]`,
does not return. -/
theorem insert_leaves_root_retained :
    (∀ fuel, opal_interval_tree_find_overlapping (fuel + 3) sameLowTree 10 20 =
      .ok (1, sameLowTree)) ∧
    (∀ fuel, (opal_interval_tree_construct rawTree >>= fun t =>
        opal_interval_tree_insert (fuel + 3) t 1 UINT64_MAX UINT64_MAX >>= fun r =>
        pure (r.1, getRefCount t ROOT, getRefCount r.2 ROOT, getRefCount r.2 NIL,
          getRefCount r.2 3)) =
      .ok (.OPAL_SUCCESS, .ok 1, .ok 3, .ok 1, .ok 1)) ∧
    (∀ fuel, opal_interval_tree_insert fuel singleTree 2 30 40 = .timeout) := by
  refine ⟨?_, ?_, insertSpinCheck_sound 8 (by decide!)⟩
  · intro fuel; rfl
  · intro fuel; rfl

end OpalIntervalTree
